import Mathlib

/-!
# Allocation registry of the system monitor (`src/main.c`, `src/systemm.h`)

A shallow embedding of the memory-tracking part of the program:
`tracked_malloc`, `tracked_free`, `visualize_memory_usage`, `check_memory_leaks`.

Modelling decisions.

* A `void*` is a natural number, `NULL` is `0`.
* The chain of `MemoryBlock` nodes reachable from the global `allocations`
  through `next` is a `List MemoryBlock`, head of the list = the node
  `allocations` points to.  The `next` field is the list structure itself.
* `size_t` values are natural numbers; the only `size_t` arithmetic that can
  wrap (`total_leaks += current->size`) is reduced modulo `2 ^ w`, where `w`
  is the bit width of `size_t` on the target (a parameter, since the type
  comes from the platform headers).
* The two calls to the C allocator inside `tracked_malloc` are oracles: the
  value returned by `malloc(size)` and whether `malloc(sizeof(MemoryBlock))`
  succeeded are arguments of the model.
* Every function also returns the sequence of externally visible actions it
  performs (lock operations, allocator calls, accesses to the shared list,
  `printf` calls), in program order.  A `load` or `store` stands for one
  source line that reads or writes `allocations` or a field of a node
  reachable from it (lines 23, 24, 37, 38, 39-40, 46, 57, 61-63, 65, 71, 79,
  88, 90-92, 94).
* A `printf` call is recorded with its format string and its arguments; the
  text that the C library formats from them is not modelled.
* The label `const char* allocation_source` is the string it points to.
* The `int` counters `block_number` and `leak_number` are 32-bit signed
  integers (`int` has 32 bits on every Windows target): `x++` is
  `wrap_int (x + 1)`, the two's-complement result.  Overflow of a signed
  counter is undefined in C; no theorem below relies on the value of a counter
  after an overflow.
-/

namespace SysMon

/-- A C pointer value (`void*`); the null pointer is `0`. -/
abbrev Ptr := Nat

/-- The null pointer. -/
def NULL : Ptr := 0

/-- Header constant `MEMORY_VISUALIZATION_SCALE` (systemm.h, line 12). -/
def MEMORY_VISUALIZATION_SCALE : Nat := 10

/-- Header constant `MAX_VISUALIZATION_BLOCKS` (systemm.h, line 13). -/
def MAX_VISUALIZATION_BLOCKS : Nat := 50

/-- The struct `MemoryBlock` (systemm.h, lines 16-21) without its `next` link. -/
structure MemoryBlock where
  address : Ptr
  size : Nat
  allocation_source : String
deriving DecidableEq

/-- One argument of a `printf` call, tagged by its conversion. -/
inductive Arg where
  | d (n : Int)
  | p (a : Ptr)
  | zu (n : Nat)
  | s (t : String)
deriving DecidableEq

/-- The externally visible actions of the registry functions. -/
inductive Event where
  | EnterCriticalSection
  | LeaveCriticalSection
  | malloc (size : Nat) (ret : Ptr)
  | mallocBlock (ok : Bool)
  | free (p : Ptr)
  | freeBlock (b : MemoryBlock)
  | load
  | store
  | printf (fmt : String) (args : List Arg)
  | fprintf_stderr (fmt : String) (args : List Arg)
deriving DecidableEq

/-- The value of an `int` expression whose mathematical result is `x`: reduced
to the 32-bit two's-complement range from `-2 ^ 31` to `2 ^ 31 - 1`. -/
def wrap_int (x : Int) : Int := (x + 2 ^ 31) % 2 ^ 32 - 2 ^ 31

/-- What a registry function leaves behind: its return value, the chain now
reachable from `allocations`, and the actions it performed. -/
structure Result (α : Type) where
  ret : α
  allocations : List MemoryBlock
  trace : List Event

/-- Function `tracked_malloc` (main.c, lines 14-32).  The argument `ptr` is the value
returned by `malloc(size)` on line 15, `block` tells whether
`malloc(sizeof(MemoryBlock))` on line 18 returned a non-null node. -/
def tracked_malloc (allocations : List MemoryBlock) (size : Nat) (source : String)
    (ptr : Ptr) (block : Bool) : Result Ptr :=
  if ptr ≠ NULL then
    if block then
      { ret := ptr
        allocations := { address := ptr, size := size, allocation_source := source } :: allocations
        trace := [Event.malloc size ptr, Event.EnterCriticalSection, Event.mallocBlock true,
                  Event.load, Event.store, Event.LeaveCriticalSection] }
    else
      { ret := NULL
        allocations := allocations
        trace := [Event.malloc size ptr, Event.EnterCriticalSection, Event.mallocBlock false,
                  Event.free ptr, Event.LeaveCriticalSection] }
  else
    { ret := ptr
      allocations := allocations
      trace := [Event.malloc size ptr] }

/-- Function `tracked_free` from the loop test on line 37 to the return, with `current`
pointing at the link whose chain is the list argument.  The first component is
the chain hanging off that link afterwards.  An empty chain leaves the loop and
runs lines 48-49; a matching node runs lines 39-44; any other node runs line 46
and the rest of the loop. -/
def tracked_free_from (ptr : Ptr) : List MemoryBlock → List MemoryBlock × List Event
  | [] =>
    ([], [Event.load, Event.LeaveCriticalSection,
          Event.fprintf_stderr "Attempting to free untracked memory %p\n" [Arg.p ptr]])
  | b :: rest =>
    if b.address = ptr then
      (rest, [Event.load, Event.load, Event.load, Event.store, Event.freeBlock b,
              Event.free ptr, Event.LeaveCriticalSection])
    else
      (b :: (tracked_free_from ptr rest).1,
        Event.load :: Event.load :: Event.load :: (tracked_free_from ptr rest).2)

/-- Function `tracked_free` (main.c, lines 34-50). -/
def tracked_free (allocations : List MemoryBlock) (ptr : Ptr) : Result Unit :=
  { ret := ()
    allocations := (tracked_free_from ptr allocations).1
    trace := Event.EnterCriticalSection :: (tracked_free_from ptr allocations).2 }

/-- The `for` loop on lines 66-68, at loop variable `i`; the first argument
bounds the number of iterations still simulated. -/
def star_loop (blocks_to_print : Nat) : Nat → Nat → List Event
  | 0, _ => []
  | fuel + 1, i =>
    if i < (if blocks_to_print < MAX_VISUALIZATION_BLOCKS then blocks_to_print
            else MAX_VISUALIZATION_BLOCKS) then
      Event.printf "*" [] :: star_loop blocks_to_print fuel (i + 1)
    else []

/-- One iteration of the `while` loop of `visualize_memory_usage`
(main.c, lines 60-71) for the node `current`. -/
def visualize_block (block_number : Int) (current : MemoryBlock) : List Event :=
  [Event.printf "Block %d:\n" [Arg.d block_number],
   Event.load, Event.printf "  Address: %p\n" [Arg.p current.address],
   Event.load, Event.printf "  Size: %zu bytes\n" [Arg.zu current.size],
   Event.load,
   Event.printf "  Source: %s (memory was allocated from)\n" [Arg.s current.allocation_source],
   Event.printf "  Memory Map: [" [],
   Event.load]
  ++ star_loop (current.size / MEMORY_VISUALIZATION_SCALE) (MAX_VISUALIZATION_BLOCKS + 1) 0
  ++ (if current.size / MEMORY_VISUALIZATION_SCALE > MAX_VISUALIZATION_BLOCKS then
        [Event.printf "..." []] else [])
  ++ [Event.printf "]\n\n" [], Event.load]

/-- The `while (current)` loop of `visualize_memory_usage` (lines 59-72). -/
def visualize_loop : Int → List MemoryBlock → List Event
  | _, [] => []
  | block_number, current :: rest =>
    visualize_block block_number current ++ visualize_loop (wrap_int (block_number + 1)) rest

/-- Function `visualize_memory_usage` (main.c, lines 52-74). -/
def visualize_memory_usage (allocations : List MemoryBlock) : Result Unit :=
  { ret := ()
    allocations := allocations
    trace :=
      [Event.EnterCriticalSection,
       Event.printf "\n=== Memory Usage Visualization ===\n" [],
       Event.printf "Each [*] represents ~%d bytes\n\n" [Arg.d MEMORY_VISUALIZATION_SCALE],
       Event.load]
      ++ visualize_loop 1 allocations
      ++ [Event.LeaveCriticalSection] }

/-- The `while (current)` loop of `check_memory_leaks` (lines 87-95): returns the
final value of `total_leaks` and the actions.  `w` is the width of `size_t`. -/
def leak_loop (w : Nat) : Nat → Int → List MemoryBlock → Nat × List Event
  | total_leaks, _, [] => (total_leaks, [])
  | total_leaks, leak_number, current :: rest =>
    ((leak_loop w ((total_leaks + current.size) % 2 ^ w) (wrap_int (leak_number + 1)) rest).1,
     [Event.load,
      Event.printf "Leak %d:\n" [Arg.d leak_number],
      Event.load, Event.printf "  Address: %p\n" [Arg.p current.address],
      Event.load, Event.printf "  Size: %zu bytes\n" [Arg.zu current.size],
      Event.load,
      Event.printf "  Source: %s (memory was allocated but not freed)\n"
        [Arg.s current.allocation_source],
      Event.printf "\n" [],
      Event.load]
     ++ (leak_loop w ((total_leaks + current.size) % 2 ^ w) (wrap_int (leak_number + 1)) rest).2)

/-- Function `check_memory_leaks` (main.c, lines 76-99); `w` is the width of `size_t`. -/
def check_memory_leaks (w : Nat) (allocations : List MemoryBlock) : Result Unit :=
  { ret := ()
    allocations := allocations
    trace :=
      [Event.EnterCriticalSection, Event.load,
       Event.printf "\n=== Memory-Leak-Analysis ===\n" []]
      ++ (match allocations with
          | [] => [Event.printf "No memory leaks\n" []]
          | _ :: _ =>
            [Event.printf "checking unfreed memory allocations...\n\n" []]
            ++ (leak_loop w 0 1 allocations).2
            ++ [Event.printf "The leaked memory: %zu bytes\n"
                  [Arg.zu (leak_loop w 0 1 allocations).1]])
      ++ [Event.LeaveCriticalSection] }

/-! ### Observations on traces -/

/-- The user regions handed to `free` (lines 26 and 42), in order. -/
def released : List Event → List Ptr
  | [] => []
  | Event.free p :: t => p :: released t
  | _ :: t => released t

/-- The bookkeeping nodes handed to `free` (line 41), in order. -/
def releasedBlocks : List Event → List MemoryBlock
  | [] => []
  | Event.freeBlock b :: t => b :: releasedBlocks t
  | _ :: t => releasedBlocks t

/-- The `printf` calls of a trace, in order. -/
def stdout : List Event → List (String × List Arg)
  | [] => []
  | Event.printf f a :: t => (f, a) :: stdout t
  | _ :: t => stdout t

/-- The addresses reported on `stderr` as untracked (line 49). -/
def diagnosed : List Event → List Ptr
  | [] => []
  | Event.fprintf_stderr "Attempting to free untracked memory %p\n" [Arg.p q] :: t =>
    q :: diagnosed t
  | _ :: t => diagnosed t

/-- The two results of `untrack` in the specification. -/
inductive Outcome where
  | Ok
  | NotTracked
deriving DecidableEq

/-- The specification's result of an `untrack` call, read off what `tracked_free`
did: `NotTracked` when it printed the untracked-memory diagnostic. -/
def outcome (r : Result Unit) : Outcome :=
  if diagnosed r.trace = [] then Outcome.Ok else Outcome.NotTracked

/-- The addresses held by the records of a chain, in traversal order. -/
def addresses (allocations : List MemoryBlock) : List Ptr :=
  allocations.map MemoryBlock.address

/-! ### Sequences of calls -/

/-- One call of the registry interface together with what the C allocator
answers during it: for `track` the value `ptr` returned by `malloc(size)` and
whether the node allocation succeeded. -/
inductive Call where
  | track (size : Nat) (source : String) (ptr : Ptr) (block : Bool)
  | untrack (ptr : Ptr)
deriving DecidableEq

/-- The chain after one call. -/
def step (allocations : List MemoryBlock) : Call → List MemoryBlock
  | Call.track size source ptr block => (tracked_malloc allocations size source ptr block).allocations
  | Call.untrack ptr => (tracked_free allocations ptr).allocations

/-- The chain after a sequence of calls, oldest call first. -/
def run : List MemoryBlock → List Call → List MemoryBlock
  | allocations, [] => allocations
  | allocations, c :: cs => run (step allocations c) cs

/-- Whether one call succeeded: `track` returned a non-null handle, `untrack`
ended without the untracked-memory diagnostic. -/
def succeeded (allocations : List MemoryBlock) : Call → Bool
  | Call.track size source ptr block =>
    decide ((tracked_malloc allocations size source ptr block).ret ≠ NULL)
  | Call.untrack ptr => decide (outcome (tracked_free allocations ptr) = Outcome.Ok)

/-- The calls of a run, each with whether it succeeded, oldest first. -/
def history : List MemoryBlock → List Call → List (Call × Bool)
  | _, [] => []
  | allocations, c :: cs => (c, succeeded allocations c) :: history (step allocations c) cs

/-- The allocator assumption along a run: a non-null address returned by
`malloc(size)` is the address of no record tracked at that moment. -/
def fresh : List MemoryBlock → List Call → Bool
  | _, [] => true
  | allocations, Call.track size source ptr block :: cs =>
    (decide (ptr = NULL) || decide (ptr ∉ addresses allocations))
      && fresh (step allocations (Call.track size source ptr block)) cs
  | allocations, Call.untrack ptr :: cs => fresh (step allocations (Call.untrack ptr)) cs

/-- Whether the address `a` is passed to a successful `untrack` in the history `h`. -/
def untrackedIn (a : Ptr) (h : List (Call × Bool)) : Bool :=
  h.any (fun e => decide (e = (Call.untrack a, true)))

/-- The specification's record set, oldest first: the records created by the
successful `track` calls of a history whose address is not passed to a
successful `untrack` later in that history. -/
def liveRecords : List (Call × Bool) → List MemoryBlock
  | [] => []
  | (Call.track size source ptr _, true) :: h =>
    if untrackedIn ptr h then liveRecords h
    else { address := ptr, size := size, allocation_source := source } :: liveRecords h
  | _ :: h => liveRecords h

/-- The records created by the successful `track` calls of a history, oldest first. -/
def createdRecords : List (Call × Bool) → List MemoryBlock
  | [] => []
  | (Call.track size source ptr _, true) :: h =>
    { address := ptr, size := size, allocation_source := source } :: createdRecords h
  | _ :: h => createdRecords h

/-- The records listed by a report, in order: each run of an `Address:` line,
a `Size:` line and a `Source:` line gives one record. -/
def reportedRecords : List (String × List Arg) → List MemoryBlock
  | [] => []
  | (_, [Arg.p a]) :: (_, [Arg.zu n]) :: (_, [Arg.s t]) :: rest =>
    { address := a, size := n, allocation_source := t } :: reportedRecords rest
  | _ :: rest => reportedRecords rest

/-- The totals printed by the line `The leaked memory: ... bytes` of a report. -/
def reportedTotals : List (String × List Arg) → List Nat
  | [] => []
  | ("The leaked memory: %zu bytes\n", [Arg.zu n]) :: t => n :: reportedTotals t
  | _ :: t => reportedTotals t

/-- The sum of the sizes of the records of a chain, as a natural number. -/
def totalSize (allocations : List MemoryBlock) : Nat :=
  (allocations.map MemoryBlock.size).sum

/-- Whether a call is a `track` that creates a record with address `p`. -/
def retracks (p : Ptr) : Call → Bool
  | Call.track _ _ ptr block => decide (ptr = p) && block
  | Call.untrack _ => false

/-! ### Traces of runs, the lock, outstanding regions -/

/-- The actions of one call, started in the chain `allocations`. -/
def callTrace (allocations : List MemoryBlock) : Call → List Event
  | Call.track size source ptr block => (tracked_malloc allocations size source ptr block).trace
  | Call.untrack ptr => (tracked_free allocations ptr).trace

/-- The actions of a sequence of calls, in program order. -/
def runTrace : List MemoryBlock → List Call → List Event
  | _, [] => []
  | allocations, c :: cs => callTrace allocations c ++ runTrace (step allocations c) cs

/-- The user regions obtained from `malloc(size)` (line 15) and not yet handed
to `free` (lines 26 and 42), newest first, starting from the regions `live`.
Each `free` cancels one earlier `malloc` of the same address. -/
def outstanding : List Ptr → List Event → List Ptr
  | live, [] => live
  | live, Event.malloc _ ret :: t =>
    if ret ≠ NULL then outstanding (ret :: live) t else outstanding live t
  | live, Event.free p :: t => outstanding (live.erase p) t
  | live, _ :: t => outstanding live t

/-- The nesting depth of `memory_lock` after a trace that starts at depth
`depth`; `none` when the trace leaves the lock at depth `0` or accesses the
shared list at depth `0`. -/
def lockScan : Nat → List Event → Option Nat
  | depth, [] => some depth
  | depth, Event.EnterCriticalSection :: t => lockScan (depth + 1) t
  | depth, Event.LeaveCriticalSection :: t =>
    if depth = 0 then none else lockScan (depth - 1) t
  | depth, Event.load :: t => if depth = 0 then none else lockScan depth t
  | depth, Event.store :: t => if depth = 0 then none else lockScan depth t
  | depth, _ :: t => lockScan depth t

/-- Each action of a trace with the nesting depth of `memory_lock` at the
moment it is performed, the trace starting at depth `depth`. -/
def lockDepths : Nat → List Event → List (Event × Nat)
  | _, [] => []
  | depth, Event.EnterCriticalSection :: t =>
    (Event.EnterCriticalSection, depth) :: lockDepths (depth + 1) t
  | depth, Event.LeaveCriticalSection :: t =>
    (Event.LeaveCriticalSection, depth) :: lockDepths (depth - 1) t
  | depth, e :: t => (e, depth) :: lockDepths depth t

/-- Whether an action writes the shared list or calls the allocator. -/
def mutating : Event → Bool
  | Event.store => true
  | Event.malloc _ _ => true
  | Event.mallocBlock _ => true
  | Event.free _ => true
  | Event.freeBlock _ => true
  | _ => false

/-- Whether an action is the allocation of a user region (`malloc(size)`). -/
def isUserAlloc : Event → Bool
  | Event.malloc _ _ => true
  | _ => false

/-- Whether an action is the release of a user region (`free(ptr)`). -/
def isUserRelease : Event → Bool
  | Event.free _ => true
  | _ => false

/-- The numbers printed by the `Leak %d:` lines of a report, in order. -/
def leakNumbers : List (String × List Arg) → List Int
  | [] => []
  | ("Leak %d:\n", [Arg.d n]) :: t => n :: leakNumbers t
  | _ :: t => leakNumbers t

/-- A sequence of `track` calls, each followed at once by the `untrack` of the
handle it returned; an element gives the size, the label and what the two
allocator calls answer. -/
def pairs : List MemoryBlock → List (Nat × String × Ptr × Bool) → List Call
  | _, [] => []
  | allocations, (size, source, ptr, block) :: t =>
    Call.track size source ptr block
      :: Call.untrack (tracked_malloc allocations size source ptr block).ret
      :: pairs (step (step allocations (Call.track size source ptr block))
          (Call.untrack (tracked_malloc allocations size source ptr block).ret)) t

/-- The operations on `memory_lock` in a trace, in order. -/
def lockOps : List Event → List Event
  | [] => []
  | Event.EnterCriticalSection :: t => Event.EnterCriticalSection :: lockOps t
  | Event.LeaveCriticalSection :: t => Event.LeaveCriticalSection :: lockOps t
  | _ :: t => lockOps t

/-- The addresses occupied by the regions of the records of a chain. -/
def covered : List MemoryBlock → Finset Nat
  | [] => ∅
  | b :: rest => Finset.Ico b.address (b.address + b.size) ∪ covered rest

/-- The records of a chain describe regions that an allocator can have handed
out and not taken back on a target with `w`-bit addresses: every region starts
at a non-null address and ends inside the address space, and regions at two
places of the chain do not overlap. -/
def validRegions (w : Nat) (allocations : List MemoryBlock) : Prop :=
  (∀ b ∈ allocations, b.address ≠ NULL ∧ b.address + b.size ≤ 2 ^ w) ∧
  allocations.Pairwise
    (fun b c => b.address + b.size ≤ c.address ∨ c.address + c.size ≤ b.address)

/-! ### Auxiliary facts -/

theorem tracked_free_from_fst (p : Ptr) (l : List MemoryBlock) :
    (tracked_free_from p l).1 = l.eraseP (fun b => decide (b.address = p)) := by
  induction l with
  | nil => rfl
  | cons b rest ih =>
    by_cases h : b.address = p
    · simp [tracked_free_from, h]
    · simp [tracked_free_from, h, ih]

theorem tracked_free_from_absent (p : Ptr) (l : List MemoryBlock) (h : p ∉ addresses l) :
    (tracked_free_from p l).1 = l ∧ released (tracked_free_from p l).2 = [] ∧
      releasedBlocks (tracked_free_from p l).2 = [] ∧
      diagnosed (tracked_free_from p l).2 = [p] := by
  induction l with
  | nil => simp [tracked_free_from, released, releasedBlocks, diagnosed]
  | cons b rest ih =>
    have hb : ¬ b.address = p := by
      intro e; apply h; simp [addresses, ← e]
    have hr : p ∉ addresses rest := by
      intro e; apply h; simp only [addresses, List.map_cons, List.mem_cons]; exact Or.inr e
    obtain ⟨h1, h2, h3, h4⟩ := ih hr
    simp [tracked_free_from, hb, released, releasedBlocks, diagnosed, h1, h2, h3, h4]

theorem tracked_free_from_present (p : Ptr) (l : List MemoryBlock) (h : p ∈ addresses l) :
    released (tracked_free_from p l).2 = [p] ∧
      (releasedBlocks (tracked_free_from p l).2).length = 1 ∧
      diagnosed (tracked_free_from p l).2 = [] ∧
      (tracked_free_from p l).1.length + 1 = l.length := by
  induction l with
  | nil => simp [addresses] at h
  | cons b rest ih =>
    by_cases hb : b.address = p
    · simp [tracked_free_from, hb, released, releasedBlocks, diagnosed]
    · have hr : p ∈ addresses rest := by
        simp only [addresses, List.map_cons, List.mem_cons] at h
        rcases h with e | e
        · exact absurd e.symm hb
        · exact e
      obtain ⟨h1, h2, h3, h4⟩ := ih hr
      simp [tracked_free_from, hb, released, releasedBlocks, diagnosed, h1, h2, h3, h4]

theorem tracked_free_from_nodup (p : Ptr) (l : List MemoryBlock) (hn : (addresses l).Nodup) :
    (tracked_free_from p l).1 = l.filter (fun b => decide (b.address ≠ p)) := by
  induction l with
  | nil => rfl
  | cons b rest ih =>
    simp only [addresses, List.map_cons, List.nodup_cons] at hn
    by_cases hb : b.address = p
    · have : ∀ x ∈ rest, x.address ≠ p := by
        intro x hx e
        apply hn.1
        rw [hb, ← e]
        exact List.mem_map_of_mem _ hx
      simp only [tracked_free_from, hb, if_true, ne_eq, not_true_eq_false, decide_False,
        Bool.false_eq_true, not_false_eq_true, List.filter_cons_of_neg]
      symm
      rw [List.filter_eq_self]
      intro x hx
      simpa using this x hx
    · simp [tracked_free_from, hb, ih hn.2]

theorem released_append (s t : List Event) : released (s ++ t) = released s ++ released t := by
  induction s with
  | nil => rfl
  | cons e s ih => cases e <;> simp [released, ih]

theorem step_untrack (l : List MemoryBlock) (p : Ptr) :
    step l (Call.untrack p) = l.eraseP (fun b => decide (b.address = p)) := by
  simp [step, tracked_free, tracked_free_from_fst]

theorem step_track (l : List MemoryBlock) (size : Nat) (source : String) (ptr : Ptr)
    (block : Bool) :
    step l (Call.track size source ptr block) =
      if ptr ≠ NULL ∧ block = true then
        { address := ptr, size := size, allocation_source := source } :: l
      else l := by
  by_cases h : ptr = NULL <;> cases block <;> simp [step, tracked_malloc, h]

theorem step_keeps_absent (l : List MemoryBlock) (p : Ptr) (c : Call)
    (hp : p ∉ addresses l) (hc : retracks p c = false) : p ∉ addresses (step l c) := by
  cases c with
  | track size source ptr block =>
    rw [step_track]
    split_ifs with h
    · simp only [retracks, Bool.and_eq_false_imp, decide_eq_true_eq] at hc
      simp only [addresses, List.map_cons, List.mem_cons, not_or]
      refine ⟨?_, hp⟩
      intro e
      have := hc e.symm
      simp [h.2] at this
    · exact hp
  | untrack q =>
    rw [step_untrack]
    intro hm
    apply hp
    simp only [addresses, List.mem_map] at hm ⊢
    obtain ⟨b, hb, e⟩ := hm
    exact ⟨b, List.mem_of_mem_eraseP hb, e⟩

theorem run_keeps_absent (p : Ptr) (cs : List Call) :
    ∀ l : List MemoryBlock, p ∉ addresses l → (∀ c ∈ cs, retracks p c = false) →
      p ∉ addresses (run l cs) := by
  induction cs with
  | nil => intro l hp _; exact hp
  | cons c cs ih =>
    intro l hp hc
    exact ih (step l c) (step_keeps_absent l p c hp (hc c (List.mem_cons_self c cs)))
      (fun d hd => hc d (List.mem_cons_of_mem c hd))

theorem succeeded_track (l : List MemoryBlock) (size : Nat) (source : String) (ptr : Ptr)
    (block : Bool) :
    succeeded l (Call.track size source ptr block) = (decide (ptr ≠ NULL) && block) := by
  by_cases h : ptr = NULL <;> cases block <;> simp [succeeded, tracked_malloc, h]

theorem succeeded_untrack (l : List MemoryBlock) (p : Ptr) :
    succeeded l (Call.untrack p) = decide (p ∈ addresses l) := by
  by_cases hp : p ∈ addresses l
  · obtain ⟨_, _, h3, _⟩ := tracked_free_from_present p l hp
    simp [succeeded, outcome, tracked_free, diagnosed, h3, hp]
  · obtain ⟨_, _, _, h4⟩ := tracked_free_from_absent p l hp
    simp [succeeded, outcome, tracked_free, diagnosed, h4, hp]

theorem untrackedIn_cons_track (a : Ptr) (size : Nat) (source : String) (ptr : Ptr)
    (block ok : Bool) (h : List (Call × Bool)) :
    untrackedIn a ((Call.track size source ptr block, ok) :: h) = untrackedIn a h := by
  simp [untrackedIn]

theorem untrackedIn_cons_untrack (a p : Ptr) (ok : Bool) (h : List (Call × Bool)) :
    untrackedIn a ((Call.untrack p, ok) :: h)
      = ((decide (p = a) && ok) || untrackedIn a h) := by
  cases ok <;> simp [untrackedIn]

theorem nodup_addresses_eraseP (l : List MemoryBlock) (q : MemoryBlock → Bool)
    (hn : (addresses l).Nodup) : (addresses (l.eraseP q)).Nodup := by
  unfold addresses at *
  exact List.Nodup.sublist (List.Sublist.map _ (List.eraseP_sublist l)) hn

/-- The chain after a run from a registry with pairwise distinct addresses,
under the allocator assumption: the records created during the run and not
successfully untracked later, newest first, followed by the initial records not
successfully untracked during the run. -/
theorem run_eq_live (cs : List Call) :
    ∀ l : List MemoryBlock, (addresses l).Nodup → fresh l cs = true →
      run l cs = (liveRecords (history l cs)).reverse
        ++ l.filter (fun b => !untrackedIn b.address (history l cs)) := by
  induction cs with
  | nil => intro l _ _; simp [run, history, liveRecords, untrackedIn]
  | cons c cs ih =>
    intro l hn hf
    cases c with
    | track size source ptr block =>
      simp only [fresh, Bool.and_eq_true, Bool.or_eq_true, decide_eq_true_eq] at hf
      obtain ⟨hfr, hfs⟩ := hf
      simp only [run, history, succeeded_track]
      by_cases hs : ptr ≠ NULL ∧ block = true
      · have hstep : step l (Call.track size source ptr block)
            = { address := ptr, size := size, allocation_source := source } :: l := by
          rw [step_track, if_pos hs]
        have hnot : ptr ∉ addresses l := by
          rcases hfr with e | e
          · exact absurd e hs.1
          · exact e
        have hn2 : (addresses (step l (Call.track size source ptr block))).Nodup := by
          rw [hstep]
          simp only [addresses, List.map_cons, List.nodup_cons]
          exact ⟨hnot, hn⟩
        have key := ih _ hn2 hfs
        rw [key, hstep]
        have e1 : (decide (ptr ≠ NULL) && block) = true := by simp [hs.1, hs.2]
        rw [e1]
        simp only [liveRecords, untrackedIn_cons_track, List.filter_cons]
        cases hu : untrackedIn ptr
          (history ({ address := ptr, size := size, allocation_source := source } :: l) cs)
        · simp
        · simp
      · have hstep : step l (Call.track size source ptr block) = l := by
          rw [step_track, if_neg hs]
        have key := ih l hn (by rw [← hstep]; exact hfs)
        have e1 : (decide (ptr ≠ NULL) && block) = false := by
          cases block
          · simp
          · simp only [not_and, Bool.not_eq_true] at hs
            by_cases hz : ptr = NULL
            · simp [hz]
            · simp [hz] at hs
        rw [hstep, e1, key]
        simp only [liveRecords, untrackedIn_cons_track]
    | untrack p =>
      simp only [fresh] at hf
      simp only [run, history, succeeded_untrack]
      have hn2 : (addresses (step l (Call.untrack p))).Nodup := by
        rw [step_untrack]; exact nodup_addresses_eraseP l _ hn
      have key := ih _ hn2 hf
      rw [key]
      simp only [liveRecords, untrackedIn_cons_untrack]
      congr 1
      have hstep : step l (Call.untrack p) = l.filter (fun b => decide (b.address ≠ p)) := by
        simp only [step, tracked_free]; exact tracked_free_from_nodup p l hn
      by_cases hp : p ∈ addresses l
      · rw [hstep, List.filter_filter]
        apply List.filter_congr
        intro b _
        by_cases e : b.address = p
        · simp [e, hp]
        · have e2 : ¬ p = b.address := fun h => e h.symm
          simp [e, e2, hp]
      · have : step l (Call.untrack p) = l := by
          simp only [step, tracked_free]; exact (tracked_free_from_absent p l hp).1
        rw [this]
        apply List.filter_congr
        intro b _
        simp [hp]

theorem stdout_append (s t : List Event) : stdout (s ++ t) = stdout s ++ stdout t := by
  induction s with
  | nil => rfl
  | cons e s ih => cases e <;> simp [stdout, ih]

theorem star_loop_eq (blocks_to_print : Nat) :
    ∀ fuel i : Nat, min blocks_to_print MAX_VISUALIZATION_BLOCKS ≤ i + fuel →
      star_loop blocks_to_print fuel i
        = List.replicate (min blocks_to_print MAX_VISUALIZATION_BLOCKS - i)
            (Event.printf "*" []) := by
  have hb : (if blocks_to_print < MAX_VISUALIZATION_BLOCKS then blocks_to_print
      else MAX_VISUALIZATION_BLOCKS) = min blocks_to_print MAX_VISUALIZATION_BLOCKS := by
    split_ifs with h
    · exact (Nat.min_eq_left (Nat.le_of_lt h)).symm
    · exact (Nat.min_eq_right (Nat.le_of_not_lt h)).symm
  intro fuel
  induction fuel with
  | zero =>
    intro i h
    have : min blocks_to_print MAX_VISUALIZATION_BLOCKS - i = 0 := by omega
    simp [star_loop, this]
  | succ fuel ih =>
    intro i h
    simp only [star_loop, hb]
    split_ifs with hi
    · rw [ih (i + 1) (by omega)]
      have : min blocks_to_print MAX_VISUALIZATION_BLOCKS - i
          = (min blocks_to_print MAX_VISUALIZATION_BLOCKS - (i + 1)) + 1 := by omega
      rw [this, List.replicate_succ]
    · have : min blocks_to_print MAX_VISUALIZATION_BLOCKS - i = 0 := by omega
      simp [this]

theorem stdout_replicate_printf (k : Nat) (f : String) (a : List Arg) :
    stdout (List.replicate k (Event.printf f a)) = List.replicate k (f, a) := by
  induction k with
  | zero => rfl
  | succ k ih => simp [List.replicate_succ, stdout, ih]

theorem stdout_visualize_block (block_number : Int) (current : MemoryBlock) :
    stdout (visualize_block block_number current)
      = [("Block %d:\n", [Arg.d block_number]),
         ("  Address: %p\n", [Arg.p current.address]),
         ("  Size: %zu bytes\n", [Arg.zu current.size]),
         ("  Source: %s (memory was allocated from)\n", [Arg.s current.allocation_source]),
         ("  Memory Map: [", [])]
        ++ List.replicate (min (current.size / 10) 50) ("*", [])
        ++ (if current.size / 10 > 50 then [("...", [])] else [])
        ++ [("]\n\n", [])] := by
  unfold visualize_block
  rw [star_loop_eq _ _ _ (by simp [MAX_VISUALIZATION_BLOCKS])]
  simp only [MEMORY_VISUALIZATION_SCALE, MAX_VISUALIZATION_BLOCKS, Nat.sub_zero]
  by_cases h : current.size / 10 > 50 <;>
    simp [h, stdout, stdout_append, stdout_replicate_printf]

theorem reportedRecords_skip (xs ys : List (String × List Arg)) (h : ∀ x ∈ xs, x.2 = []) :
    reportedRecords (xs ++ ys) = reportedRecords ys := by
  induction xs with
  | nil => rfl
  | cons x xs ih =>
    obtain ⟨f, a⟩ := x
    have ha : a = [] := h (f, a) (List.mem_cons_self _ _)
    subst ha
    have := ih (fun y hy => h y (List.mem_cons_of_mem _ hy))
    simp only [List.cons_append]
    rw [reportedRecords]
    · exact this
    · intro _ _ _ _ _ _ _ e
      simp at e

theorem reportedRecords_visualize_loop (l : List MemoryBlock) :
    ∀ n : Int, reportedRecords (stdout (visualize_loop n l)) = l := by
  induction l with
  | nil => intro n; rfl
  | cons b rest ih =>
    intro n
    simp only [visualize_loop, stdout_append, stdout_visualize_block, List.cons_append,
      List.nil_append, List.append_assoc]
    rw [reportedRecords]
    · rw [reportedRecords]
      have hskip := reportedRecords_skip
        ((("  Memory Map: [", []) :: List.replicate (min (b.size / 10) 50) ("*", []))
          ++ ((if b.size / 10 > 50 then [("...", [])] else []) ++ [("]\n\n", [])]))
        (stdout (visualize_loop (wrap_int (n + 1)) rest))
        (by
          intro x hx
          simp only [List.cons_append, List.mem_cons, List.mem_append] at hx
          rcases hx with e | e | e | e
          · rw [e]
          · rw [List.eq_of_mem_replicate e]
          · split_ifs at e <;> simp at e
            rw [e]
          · simp at e
            rw [e])
      simp only [List.cons_append, List.append_assoc, List.nil_append] at hskip
      rw [hskip, ih]
    · intro _ _ _ _ _ _ _ e
      simp at e

theorem run_sublist_created (cs : List Call) :
    ∀ l : List MemoryBlock,
      List.Sublist (run l cs) ((createdRecords (history l cs)).reverse ++ l) := by
  induction cs with
  | nil => intro l; simp [run, history, createdRecords]
  | cons c cs ih =>
    intro l
    have key := ih (step l c)
    cases c with
    | track size source ptr block =>
      simp only [run, history, succeeded_track]
      by_cases hs : ptr ≠ NULL ∧ block = true
      · have e1 : (decide (ptr ≠ NULL) && block) = true := by simp [hs.1, hs.2]
        rw [step_track, if_pos hs] at key
        rw [step_track, if_pos hs, e1]
        simpa [createdRecords] using key
      · have e1 : (decide (ptr ≠ NULL) && block) = false := by
          cases block
          · simp
          · by_cases hz : ptr = NULL
            · simp [hz]
            · exact absurd ⟨hz, rfl⟩ hs
        rw [step_track, if_neg hs] at key
        rw [step_track, if_neg hs, e1]
        simpa [createdRecords] using key
    | untrack p =>
      simp only [run, history, createdRecords]
      refine List.Sublist.trans key ?_
      apply List.Sublist.append (List.Sublist.refl _)
      rw [step_untrack]
      exact List.eraseP_sublist l

theorem leak_loop_total (w : Nat) (l : List MemoryBlock) :
    ∀ (t : Nat) (n : Int), t % 2 ^ w = t →
      (leak_loop w t n l).1 = (t + totalSize l) % 2 ^ w := by
  induction l with
  | nil => intro t n h; simp [leak_loop, totalSize, h]
  | cons b rest ih =>
    intro t n _
    simp only [leak_loop]
    rw [ih _ _ (Nat.mod_mod _ _)]
    simp only [totalSize, List.map_cons, List.sum_cons]
    rw [Nat.add_mod, Nat.mod_mod, ← Nat.add_mod, Nat.add_assoc]

theorem reportedTotals_skip (s t : List (String × List Arg))
    (hs : ∀ x ∈ s, x.1 ≠ "The leaked memory: %zu bytes\n") :
    reportedTotals (s ++ t) = reportedTotals t := by
  induction s with
  | nil => rfl
  | cons x s ih =>
    obtain ⟨f, a⟩ := x
    have hf : f ≠ "The leaked memory: %zu bytes\n" := hs (f, a) (List.mem_cons_self _ _)
    rw [List.cons_append, reportedTotals]
    · exact ih (fun y hy => hs y (List.mem_cons_of_mem _ hy))
    · intro n e1
      exact hf (congrArg Prod.fst e1)

theorem stdout_leak_loop_cons (w : Nat) (t : Nat) (n : Int) (b : MemoryBlock)
    (rest : List MemoryBlock) :
    stdout (leak_loop w t n (b :: rest)).2
      = [("Leak %d:\n", [Arg.d n]),
         ("  Address: %p\n", [Arg.p b.address]),
         ("  Size: %zu bytes\n", [Arg.zu b.size]),
         ("  Source: %s (memory was allocated but not freed)\n", [Arg.s b.allocation_source]),
         ("\n", [])]
        ++ stdout (leak_loop w ((t + b.size) % 2 ^ w) (wrap_int (n + 1)) rest).2 := by
  have e : (leak_loop w t n (b :: rest)).2
      = [Event.load,
         Event.printf "Leak %d:\n" [Arg.d n],
         Event.load, Event.printf "  Address: %p\n" [Arg.p b.address],
         Event.load, Event.printf "  Size: %zu bytes\n" [Arg.zu b.size],
         Event.load,
         Event.printf "  Source: %s (memory was allocated but not freed)\n"
           [Arg.s b.allocation_source],
         Event.printf "\n" [],
         Event.load]
        ++ (leak_loop w ((t + b.size) % 2 ^ w) (wrap_int (n + 1)) rest).2 := rfl
  rw [e, stdout_append]
  rfl

theorem stdout_check_cons (w : Nat) (b : MemoryBlock) (rest : List MemoryBlock) :
    stdout (check_memory_leaks w (b :: rest)).trace
      = [("\n=== Memory-Leak-Analysis ===\n", []),
         ("checking unfreed memory allocations...\n\n", [])]
        ++ stdout (leak_loop w 0 1 (b :: rest)).2
        ++ [("The leaked memory: %zu bytes\n", [Arg.zu (leak_loop w 0 1 (b :: rest)).1])] := by
  have e : (check_memory_leaks w (b :: rest)).trace
      = [Event.EnterCriticalSection, Event.load,
         Event.printf "\n=== Memory-Leak-Analysis ===\n" [],
         Event.printf "checking unfreed memory allocations...\n\n" []]
        ++ ((leak_loop w 0 1 (b :: rest)).2
        ++ [Event.printf "The leaked memory: %zu bytes\n"
              [Arg.zu (leak_loop w 0 1 (b :: rest)).1], Event.LeaveCriticalSection]) := by
    simp [check_memory_leaks]
  rw [e, stdout_append, stdout_append]
  simp [stdout]

theorem stdout_check_nil (w : Nat) :
    stdout (check_memory_leaks w []).trace
      = [("\n=== Memory-Leak-Analysis ===\n", []), ("No memory leaks\n", [])] := rfl

theorem stdout_leak_loop_fmt (w : Nat) (l : List MemoryBlock) :
    ∀ (t : Nat) (n : Int), ∀ x ∈ stdout (leak_loop w t n l).2,
      x.1 ≠ "The leaked memory: %zu bytes\n" := by
  induction l with
  | nil => intro t n x hx; simp [leak_loop, stdout] at hx
  | cons b rest ih =>
    intro t n x hx
    rw [stdout_leak_loop_cons] at hx
    simp only [List.cons_append, List.nil_append, List.mem_cons] at hx
    rcases hx with e | e | e | e | e | e
    · rw [e]; simp
    · rw [e]; simp
    · rw [e]; simp
    · rw [e]; simp
    · rw [e]; simp
    · exact ih _ _ x e

theorem reportedTotals_check (w : Nat) (b : MemoryBlock) (rest : List MemoryBlock) :
    reportedTotals (stdout (check_memory_leaks w (b :: rest)).trace)
      = [totalSize (b :: rest) % 2 ^ w] := by
  have ht := leak_loop_total w (b :: rest) 0 1 (Nat.zero_mod _)
  rw [Nat.zero_add] at ht
  rw [stdout_check_cons, reportedTotals_skip, ht, reportedTotals, reportedTotals]
  intro x hx
  simp only [List.cons_append, List.nil_append, List.mem_cons] at hx
  rcases hx with e | e | e
  · rw [e]; simp
  · rw [e]; simp
  · exact stdout_leak_loop_fmt w _ _ _ x e

theorem reportedRecords_leak_loop (w : Nat) (l : List MemoryBlock) :
    ∀ (t : Nat) (n : Int) (tail : List (String × List Arg)),
      reportedRecords (stdout (leak_loop w t n l).2 ++ tail) = l ++ reportedRecords tail := by
  induction l with
  | nil => intro t n tail; simp [leak_loop, stdout]
  | cons b rest ih =>
    intro t n tail
    rw [stdout_leak_loop_cons]
    simp only [List.cons_append, List.nil_append]
    rw [reportedRecords]
    · rw [reportedRecords, reportedRecords]
      · rw [ih]
      · intro _ _ _ _ _ _ _ e
        simp at e
    · intro _ _ _ _ _ _ _ e
      simp at e

theorem reportedRecords_check (w : Nat) (l : List MemoryBlock) :
    reportedRecords (stdout (check_memory_leaks w l).trace) = l := by
  cases l with
  | nil =>
    rw [stdout_check_nil, reportedRecords, reportedRecords, reportedRecords]
    · intro _ _ _ _ _ _ _ e
      simp at e
    · intro _ _ _ _ _ _ _ e
      simp at e
  | cons b rest =>
    have key := reportedRecords_leak_loop w (b :: rest) 0 1
      [("The leaked memory: %zu bytes\n", [Arg.zu (leak_loop w 0 1 (b :: rest)).1])]
    rw [stdout_check_cons]
    simp only [List.cons_append, List.nil_append]
    rw [reportedRecords]
    · rw [reportedRecords]
      · rw [key, reportedRecords, reportedRecords]
        · simp
        · intro _ _ _ _ _ _ _ e
          simp at e
      · intro _ _ _ _ _ _ _ e
        simp at e
    · intro _ _ _ _ _ _ _ e
      simp at e

theorem stdout_visualize (l : List MemoryBlock) :
    stdout (visualize_memory_usage l).trace
      = [("\n=== Memory Usage Visualization ===\n", []),
         ("Each [*] represents ~%d bytes\n\n", [Arg.d 10])]
        ++ stdout (visualize_loop 1 l) := by
  have e : (visualize_memory_usage l).trace
      = [Event.EnterCriticalSection,
         Event.printf "\n=== Memory Usage Visualization ===\n" [],
         Event.printf "Each [*] represents ~%d bytes\n\n" [Arg.d MEMORY_VISUALIZATION_SCALE],
         Event.load]
        ++ (visualize_loop 1 l ++ [Event.LeaveCriticalSection]) := by
    simp [visualize_memory_usage]
  rw [e, stdout_append, stdout_append]
  simp [stdout, MEMORY_VISUALIZATION_SCALE]

theorem reportedRecords_visualize (l : List MemoryBlock) :
    reportedRecords (stdout (visualize_memory_usage l).trace) = l := by
  rw [stdout_visualize]
  simp only [List.cons_append, List.nil_append]
  rw [reportedRecords]
  · rw [reportedRecords]
    · exact reportedRecords_visualize_loop l 1
    · intro _ _ _ _ _ _ _ e
      simp at e
  · intro _ _ _ _ _ _ _ e
    simp at e

theorem count_star_block (n : Int) (b : MemoryBlock) :
    (stdout (visualize_block n b)).count ("*", []) = min (b.size / 10) 50 := by
  rw [stdout_visualize_block]
  by_cases h : b.size / 10 > 50 <;>
    simp [h, List.count_cons, List.count_append, List.count_replicate]

theorem count_dots_block (n : Int) (b : MemoryBlock) :
    (stdout (visualize_block n b)).count ("...", []) = if b.size / 10 > 50 then 1 else 0 := by
  rw [stdout_visualize_block]
  by_cases h : b.size / 10 > 50 <;>
    simp [h, List.count_cons, List.count_append, List.count_replicate]

theorem count_star_loop (l : List MemoryBlock) :
    ∀ n : Int, (stdout (visualize_loop n l)).count ("*", [])
      = (l.map (fun b => min (b.size / 10) 50)).sum := by
  induction l with
  | nil => intro n; rfl
  | cons b rest ih =>
    intro n
    simp only [visualize_loop, stdout_append, List.count_append, count_star_block, ih,
      List.map_cons, List.sum_cons]

theorem count_dots_loop (l : List MemoryBlock) :
    ∀ n : Int, (stdout (visualize_loop n l)).count ("...", [])
      = (l.filter (fun b => decide (b.size / 10 > 50))).length := by
  induction l with
  | nil => intro n; rfl
  | cons b rest ih =>
    intro n
    simp only [visualize_loop, stdout_append, List.count_append, count_dots_block, ih,
      List.filter_cons]
    by_cases h : b.size / 10 > 50 <;> simp [h, Nat.add_comm]

theorem nodup_step (l : List MemoryBlock) (c : Call) (cs : List Call)
    (hn : (addresses l).Nodup) (hf : fresh l (c :: cs) = true) :
    (addresses (step l c)).Nodup ∧ fresh (step l c) cs = true := by
  cases c with
  | track size source ptr block =>
    simp only [fresh, Bool.and_eq_true, Bool.or_eq_true, decide_eq_true_eq] at hf
    refine ⟨?_, hf.2⟩
    rw [step_track]
    split_ifs with hs
    · simp only [addresses, List.map_cons, List.nodup_cons]
      refine ⟨?_, hn⟩
      rcases hf.1 with e | e
      · exact absurd e hs.1
      · exact e
    · exact hn
  | untrack p =>
    simp only [fresh] at hf
    refine ⟨?_, hf⟩
    rw [step_untrack]
    exact nodup_addresses_eraseP l _ hn

theorem run_nodup (cs : List Call) :
    ∀ l : List MemoryBlock, (addresses l).Nodup → fresh l cs = true →
      (addresses (run l cs)).Nodup := by
  induction cs with
  | nil => intro l hn _; exact hn
  | cons c cs ih =>
    intro l hn hf
    obtain ⟨h1, h2⟩ := nodup_step l c cs hn hf
    exact ih _ h1 h2

theorem step_keeps_null_absent (l : List MemoryBlock) (c : Call)
    (h : NULL ∉ addresses l) : NULL ∉ addresses (step l c) := by
  cases c with
  | track size source ptr block =>
    rw [step_track]
    split_ifs with hs
    · simp only [addresses, List.map_cons, List.mem_cons, not_or]
      exact ⟨fun e => hs.1 e.symm, h⟩
    · exact h
  | untrack q =>
    rw [step_untrack]
    intro hm
    apply h
    simp only [addresses, List.mem_map] at hm ⊢
    obtain ⟨b, hb, e⟩ := hm
    exact ⟨b, List.mem_of_mem_eraseP hb, e⟩

theorem run_keeps_null_absent (cs : List Call) :
    ∀ l : List MemoryBlock, NULL ∉ addresses l → NULL ∉ addresses (run l cs) := by
  induction cs with
  | nil => intro l h; exact h
  | cons c cs ih => intro l h; exact ih _ (step_keeps_null_absent l c h)

theorem tracked_free_from_split (p : Ptr) (l : List MemoryBlock) (h : p ∈ addresses l) :
    ∃ pre b post, l = pre ++ b :: post ∧ b.address = p ∧ (∀ x ∈ pre, x.address ≠ p) ∧
      (tracked_free_from p l).1 = pre ++ post ∧
      releasedBlocks (tracked_free_from p l).2 = [b] := by
  induction l with
  | nil => simp [addresses] at h
  | cons c rest ih =>
    by_cases hc : c.address = p
    · refine ⟨[], c, rest, rfl, hc, ?_, ?_, ?_⟩
      · intro x hx; simp at hx
      · simp [tracked_free_from, hc]
      · simp [tracked_free_from, hc, releasedBlocks]
    · have hr : p ∈ addresses rest := by
        simp only [addresses, List.map_cons, List.mem_cons] at h
        rcases h with e | e
        · exact absurd e.symm hc
        · exact e
      obtain ⟨pre, b, post, h1, h2, h3, h4, h5⟩ := ih hr
      refine ⟨c :: pre, b, post, ?_, h2, ?_, ?_, ?_⟩
      · rw [h1]; rfl
      · intro x hx
        simp only [List.mem_cons] at hx
        rcases hx with e | e
        · rw [e]; exact hc
        · exact h3 x e
      · simp [tracked_free_from, hc, h4]
      · simp [tracked_free_from, hc, releasedBlocks, h5]

theorem run_pairs (ps : List (Nat × String × Ptr × Bool)) :
    ∀ l : List MemoryBlock, NULL ∉ addresses l → run l (pairs l ps) = l := by
  induction ps with
  | nil => intro l _; rfl
  | cons q ps ih =>
    intro l hl
    obtain ⟨size, source, ptr, block⟩ := q
    have key : step (step l (Call.track size source ptr block))
        (Call.untrack (tracked_malloc l size source ptr block).ret) = l := by
      rw [step_track, step_untrack]
      by_cases hs : ptr ≠ NULL ∧ block = true
      · have : (tracked_malloc l size source ptr block).ret = ptr := by
          simp [tracked_malloc, hs.1, hs.2]
        rw [if_pos hs, this]
        simp [List.eraseP_cons]
      · have : (tracked_malloc l size source ptr block).ret = NULL := by
          by_cases hz : ptr = NULL
          · simp [tracked_malloc, hz]
          · cases block
            · simp [tracked_malloc, hz]
            · exact absurd ⟨hz, rfl⟩ hs
        rw [if_neg hs, this]
        have := (tracked_free_from_absent NULL l hl).1
        rw [tracked_free_from_fst] at this
        exact this
    simp only [pairs, run]
    rw [key]
    exact ih l hl

theorem addresses_eraseP (p : Ptr) (l : List MemoryBlock) :
    addresses (l.eraseP (fun b => decide (b.address = p))) = (addresses l).erase p := by
  induction l with
  | nil => rfl
  | cons b rest ih =>
    by_cases h : b.address = p
    · simp [addresses, List.eraseP_cons, h]
    · have h2 : ¬ (b.address == p) = true := by simpa using h
      simp only [addresses, List.map_cons] at ih ⊢
      rw [List.eraseP_cons, List.erase_cons]
      simp [h, ih]

theorem outstanding_append (s t : List Event) :
    ∀ live : List Ptr, outstanding live (s ++ t) = outstanding (outstanding live s) t := by
  induction s with
  | nil => intro live; rfl
  | cons e s ih =>
    intro live
    cases e with
    | malloc size ret => by_cases h : ret = NULL <;> simp [outstanding, h, ih]
    | _ => simp [outstanding, ih]

theorem outstanding_tracked_free_from (p : Ptr) (l : List MemoryBlock) :
    ∀ live : List Ptr, outstanding live (tracked_free_from p l).2
      = if p ∈ addresses l then live.erase p else live := by
  induction l with
  | nil => intro live; simp [tracked_free_from, outstanding, addresses]
  | cons b rest ih =>
    intro live
    by_cases h : b.address = p
    · simp [tracked_free_from, outstanding, addresses, h]
    · have h2 : ¬ p = b.address := fun e => h e.symm
      have := ih live
      simp only [addresses] at this
      simp [tracked_free_from, outstanding, addresses, h, h2, this]

theorem outstanding_call (l : List MemoryBlock) (c : Call) :
    outstanding (addresses l) (callTrace l c) = addresses (step l c) := by
  cases c with
  | track size source ptr block =>
    rw [step_track]
    by_cases hz : ptr = NULL
    · simp [callTrace, tracked_malloc, hz, outstanding]
    · cases block
      · simp [callTrace, tracked_malloc, hz, outstanding]
      · simp [callTrace, tracked_malloc, hz, outstanding, addresses]
  | untrack p =>
    rw [step_untrack, addresses_eraseP]
    simp only [callTrace, tracked_free, outstanding]
    rw [outstanding_tracked_free_from]
    split_ifs with h
    · rfl
    · exact (List.erase_of_not_mem h).symm

theorem outstanding_run (cs : List Call) :
    ∀ l : List MemoryBlock,
      outstanding (addresses l) (runTrace l cs) = addresses (run l cs) := by
  induction cs with
  | nil => intro l; rfl
  | cons c cs ih =>
    intro l
    simp only [runTrace, run]
    rw [outstanding_append, outstanding_call, ih]

theorem lockScan_append (s t : List Event) :
    ∀ d : Nat, lockScan d (s ++ t) = (lockScan d s).bind (fun k => lockScan k t) := by
  induction s with
  | nil => intro d; rfl
  | cons e s ih =>
    intro d
    cases e <;> simp [lockScan, ih] <;> split_ifs <;> rfl

theorem lockScan_star_loop (blocks_to_print d : Nat) :
    ∀ fuel i : Nat, lockScan d (star_loop blocks_to_print fuel i) = some d := by
  intro fuel
  induction fuel with
  | zero => intro i; rfl
  | succ fuel ih =>
    intro i
    simp only [star_loop]
    split_ifs <;> simp [lockScan, ih]

theorem lockScan_visualize_block (n : Int) (b : MemoryBlock) (d : Nat) :
    lockScan (d + 1) (visualize_block n b) = some (d + 1) := by
  unfold visualize_block
  rw [lockScan_append, lockScan_append, lockScan_append]
  by_cases h : b.size / MEMORY_VISUALIZATION_SCALE > MAX_VISUALIZATION_BLOCKS <;>
    simp [lockScan, lockScan_star_loop, h]

theorem lockScan_visualize_loop (l : List MemoryBlock) (d : Nat) :
    ∀ n : Int, lockScan (d + 1) (visualize_loop n l) = some (d + 1) := by
  induction l with
  | nil => intro n; rfl
  | cons b rest ih =>
    intro n
    simp only [visualize_loop]
    rw [lockScan_append, lockScan_visualize_block]
    exact ih _

theorem lockScan_leak_loop (w : Nat) (l : List MemoryBlock) (d : Nat) :
    ∀ (t : Nat) (n : Int), lockScan (d + 1) (leak_loop w t n l).2 = some (d + 1) := by
  induction l with
  | nil => intro t n; rfl
  | cons b rest ih =>
    intro t n
    simp only [leak_loop, List.cons_append, List.nil_append, lockScan]
    exact ih _ _

theorem lockScan_tracked_free_from (p : Ptr) (l : List MemoryBlock) (d : Nat) :
    lockScan (d + 1) (tracked_free_from p l).2 = some d := by
  induction l with
  | nil => simp [tracked_free_from, lockScan]
  | cons b rest ih =>
    by_cases h : b.address = p
    · simp [tracked_free_from, h, lockScan]
    · simp [tracked_free_from, h, lockScan, ih]

theorem lockOps_append (s t : List Event) : lockOps (s ++ t) = lockOps s ++ lockOps t := by
  induction s with
  | nil => rfl
  | cons e s ih => cases e <;> simp [lockOps, ih]

theorem lockOps_tracked_free_from (p : Ptr) (l : List MemoryBlock) :
    lockOps (tracked_free_from p l).2 = [Event.LeaveCriticalSection] := by
  induction l with
  | nil => simp [tracked_free_from, lockOps]
  | cons b rest ih =>
    by_cases h : b.address = p
    · simp [tracked_free_from, h, lockOps]
    · simp [tracked_free_from, h, lockOps, ih]

theorem mem_star_loop (blocks_to_print : Nat) (e : Event) :
    ∀ fuel i : Nat, e ∈ star_loop blocks_to_print fuel i → e = Event.printf "*" [] := by
  intro fuel
  induction fuel with
  | zero => intro i h; simp [star_loop] at h
  | succ fuel ih =>
    intro i h
    simp only [star_loop] at h
    split_ifs at h
    all_goals first
      | (simp only [List.mem_cons] at h
         rcases h with e1 | e1
         · exact e1
         · exact ih _ e1)
      | simp at h

theorem mem_visualize_loop (e : Event) (l : List MemoryBlock) :
    ∀ n : Int, e ∈ visualize_loop n l →
      e = Event.load ∨ ∃ f a, e = Event.printf f a := by
  induction l with
  | nil => intro n h; simp [visualize_loop] at h
  | cons b rest ih =>
    intro n h
    simp only [visualize_loop, visualize_block, List.mem_append, List.mem_cons] at h
    rcases h with ((((h | h | h | h | h | h | h | h | h | h) | h) | h) | h) | h
    any_goals first
      | exact Or.inl h
      | exact Or.inr ⟨_, _, h⟩
    · simp at h
    · exact Or.inr ⟨_, _, mem_star_loop _ _ _ _ h⟩
    · split_ifs at h
      · simp only [List.mem_singleton] at h
        exact Or.inr ⟨_, _, h⟩
      · simp at h
    · rcases h with h | h | h
      · exact Or.inr ⟨_, _, h⟩
      · exact Or.inl h
      · simp at h
    · exact ih _ h

theorem mem_leak_loop (e : Event) (w : Nat) (l : List MemoryBlock) :
    ∀ (t : Nat) (n : Int), e ∈ (leak_loop w t n l).2 →
      e = Event.load ∨ ∃ f a, e = Event.printf f a := by
  induction l with
  | nil => intro t n h; simp [leak_loop] at h
  | cons b rest ih =>
    intro t n h
    simp only [leak_loop, List.cons_append, List.nil_append, List.mem_cons] at h
    rcases h with h | h | h | h | h | h | h | h | h | h | h
    any_goals first
      | exact Or.inl h
      | exact Or.inr ⟨_, _, h⟩
    exact ih _ _ h

theorem lockOps_of_passive (s : List Event)
    (h : ∀ e ∈ s, e = Event.load ∨ ∃ f a, e = Event.printf f a) : lockOps s = [] := by
  induction s with
  | nil => rfl
  | cons e s ih =>
    have hs := ih (fun x hx => h x (List.mem_cons_of_mem _ hx))
    rcases h e (List.mem_cons_self _ _) with e1 | ⟨f, a, e1⟩ <;> subst e1 <;>
      simp [lockOps, hs]

theorem stdout_leak_loop_not_none (w : Nat) (l : List MemoryBlock) :
    ∀ (t : Nat) (n : Int), ∀ x ∈ stdout (leak_loop w t n l).2,
      x.1 ≠ "No memory leaks\n" := by
  induction l with
  | nil => intro t n x hx; simp [leak_loop, stdout] at hx
  | cons b rest ih =>
    intro t n x hx
    rw [stdout_leak_loop_cons] at hx
    simp only [List.cons_append, List.nil_append, List.mem_cons] at hx
    rcases hx with e | e | e | e | e | e
    · rw [e]; simp
    · rw [e]; simp
    · rw [e]; simp
    · rw [e]; simp
    · rw [e]; simp
    · exact ih _ _ x e

theorem lockDepths_tracked_free_from (p : Ptr) (l : List MemoryBlock) :
    (lockDepths 1 (tracked_free_from p l).2).filter (fun x => isUserRelease x.1)
        = (if p ∈ addresses l then [(Event.free p, 1)] else []) ∧
      (lockDepths 1 (tracked_free_from p l).2).filter (fun x => isUserAlloc x.1) = [] := by
  induction l with
  | nil => simp [tracked_free_from, lockDepths, isUserRelease, isUserAlloc, addresses]
  | cons b rest ih =>
    by_cases h : b.address = p
    · simp [tracked_free_from, h, lockDepths, isUserRelease, isUserAlloc, addresses]
    · have h2 : ¬ p = b.address := fun e => h e.symm
      obtain ⟨ih1, ih2⟩ := ih
      have hm : (p ∈ addresses (b :: rest)) = (p ∈ addresses rest) := by
        simp [addresses, h2]
      have e1 : isUserRelease Event.load = false := rfl
      have e2 : isUserAlloc Event.load = false := rfl
      simp only [tracked_free_from, h, if_false, lockDepths, List.filter_cons, e1, e2,
        Bool.false_eq_true, hm, ih1, ih2, and_self]

theorem not_mutating_of_passive (s : List Event)
    (h : ∀ e ∈ s, e = Event.load ∨ ∃ f a, e = Event.printf f a) :
    ∀ e ∈ s, mutating e = false := by
  intro e he
  rcases h e he with e1 | ⟨f, a, e1⟩ <;> subst e1 <;> rfl

theorem trace_visualize (l : List MemoryBlock) :
    (visualize_memory_usage l).trace
      = [Event.EnterCriticalSection,
         Event.printf "\n=== Memory Usage Visualization ===\n" [],
         Event.printf "Each [*] represents ~%d bytes\n\n" [Arg.d MEMORY_VISUALIZATION_SCALE],
         Event.load]
        ++ (visualize_loop 1 l ++ [Event.LeaveCriticalSection]) := by
  simp [visualize_memory_usage]

theorem trace_check_cons (w : Nat) (b : MemoryBlock) (rest : List MemoryBlock) :
    (check_memory_leaks w (b :: rest)).trace
      = [Event.EnterCriticalSection, Event.load,
         Event.printf "\n=== Memory-Leak-Analysis ===\n" [],
         Event.printf "checking unfreed memory allocations...\n\n" []]
        ++ ((leak_loop w 0 1 (b :: rest)).2
        ++ [Event.printf "The leaked memory: %zu bytes\n"
              [Arg.zu (leak_loop w 0 1 (b :: rest)).1], Event.LeaveCriticalSection]) := by
  simp [check_memory_leaks]

theorem wrap_int_of_range (x : Int) (h1 : -(2 ^ 31) ≤ x) (h2 : x < 2 ^ 31) : wrap_int x = x := by
  unfold wrap_int
  rw [Int.emod_eq_of_lt (by omega) (by omega)]
  omega

theorem leakNumbers_leak_loop (w : Nat) (l : List MemoryBlock) :
    ∀ (t : Nat) (n : Int) (tail : List (String × List Arg)),
      -(2 ^ 31) ≤ n → n + (l.length : Int) < 2 ^ 31 →
      leakNumbers (stdout (leak_loop w t n l).2 ++ tail)
        = (List.range l.length).map (fun (i : Nat) => n + (i : Int)) ++ leakNumbers tail := by
  induction l with
  | nil => intro t n tail _ _; simp [leak_loop, stdout]
  | cons b rest ih =>
    intro t n tail h1 h2
    rw [List.length_cons, Nat.cast_add, Nat.cast_one] at h2
    have hw : wrap_int (n + 1) = n + 1 := wrap_int_of_range _ (by omega) (by omega)
    rw [stdout_leak_loop_cons, hw]
    simp only [List.cons_append, List.nil_append]
    rw [leakNumbers, leakNumbers, leakNumbers, leakNumbers, leakNumbers,
      ih _ _ _ (by omega) (by omega)]
    · rw [List.length_cons, List.range_succ_eq_map]
      simp only [List.map_cons, List.map_map, Nat.cast_zero, add_zero, List.cons_append,
        List.cons.injEq, true_and, List.append_cancel_right_eq]
      apply List.map_congr_left
      intro i _
      simp only [Function.comp, Nat.succ_eq_add_one, Nat.cast_add, Nat.cast_one]
      ring
    all_goals
      intro _ e
      simp at e

theorem length_leakNumbers_leak_loop (w : Nat) (l : List MemoryBlock) :
    ∀ (t : Nat) (n : Int) (tail : List (String × List Arg)),
      (leakNumbers (stdout (leak_loop w t n l).2 ++ tail)).length
        = l.length + (leakNumbers tail).length := by
  induction l with
  | nil => intro t n tail; simp [leak_loop, stdout]
  | cons b rest ih =>
    intro t n tail
    rw [stdout_leak_loop_cons]
    simp only [List.cons_append, List.nil_append]
    rw [leakNumbers, leakNumbers, leakNumbers, leakNumbers, leakNumbers, List.length_cons, ih,
      List.length_cons]
    · omega
    all_goals
      intro _ e
      simp at e

theorem mem_covered (x : Nat) (l : List MemoryBlock) :
    x ∈ covered l ↔ ∃ b ∈ l, b.address ≤ x ∧ x < b.address + b.size := by
  induction l with
  | nil => simp [covered]
  | cons c rest ih => simp [covered, ih]

theorem card_covered (l : List MemoryBlock)
    (h : l.Pairwise
      (fun b c => b.address + b.size ≤ c.address ∨ c.address + c.size ≤ b.address)) :
    (covered l).card = totalSize l := by
  induction l with
  | nil => rfl
  | cons c rest ih =>
    rw [List.pairwise_cons] at h
    have hd : Disjoint (Finset.Ico c.address (c.address + c.size)) (covered rest) := by
      rw [Finset.disjoint_left]
      intro x hx hm
      rw [Finset.mem_Ico] at hx
      obtain ⟨b, hb, h1, h2⟩ := (mem_covered x rest).mp hm
      rcases h.1 b hb with e | e
      · exact Nat.lt_irrefl x (Nat.lt_of_lt_of_le (Nat.lt_of_lt_of_le hx.2 e) h1)
      · exact Nat.lt_irrefl x (Nat.lt_of_lt_of_le (Nat.lt_of_lt_of_le h2 e) hx.1)
    simp only [covered, totalSize, List.map_cons, List.sum_cons]
    rw [Finset.card_union_of_disjoint hd, Nat.card_Ico, ih h.2]
    simp only [totalSize]
    omega

theorem totalSize_lt (w : Nat) (l : List MemoryBlock) (h : validRegions w l) :
    totalSize l < 2 ^ w := by
  have hsub : covered l ⊆ Finset.Ico 1 (2 ^ w) := by
    intro x hx
    obtain ⟨b, hb, h1, h2⟩ := (mem_covered x l).mp hx
    have hb2 := h.1 b hb
    have hnz : b.address ≠ 0 := hb2.1
    rw [Finset.mem_Ico]
    exact ⟨Nat.lt_of_lt_of_le (Nat.pos_of_ne_zero hnz) h1, Nat.lt_of_lt_of_le h2 hb2.2⟩
  have hc := Finset.card_le_card hsub
  rw [card_covered l h.2, Nat.card_Ico] at hc
  have hpos : 0 < 2 ^ w := Nat.two_pow_pos w
  omega

/-! ### The claims -/

/-- C1: after any sequence of `tracked_malloc` and `tracked_free` calls from the
empty registry, in which the allocator may fail at either allocation and never
returns an address that is still tracked, the records reachable from
`allocations` are, as a multiset, the records created by the successful `track`
calls whose address was not passed to a successful `untrack` afterwards. -/
theorem C1_records_are_live (cs : List Call) (hf : fresh [] cs = true) :
    Multiset.ofList (run [] cs) = Multiset.ofList (liveRecords (history [] cs)) := by
  rw [run_eq_live cs [] (by simp [addresses]) hf]
  simp

/-- Instance of C1: a run with both kinds of allocator failure, an `untrack` of
an unknown address, and a tracked address that is reused after its release. -/
theorem C1_records_are_live_witness :
    fresh []
      [Call.track 1000 "Main Function" 1 true, Call.track 2000 "Data Processing" 2 true,
       Call.track 16 "x" 0 true, Call.track 7 "y" 9 false, Call.untrack 1, Call.untrack 42,
       Call.track 5 "again" 1 true] = true ∧
    Multiset.ofList (run []
      [Call.track 1000 "Main Function" 1 true, Call.track 2000 "Data Processing" 2 true,
       Call.track 16 "x" 0 true, Call.track 7 "y" 9 false, Call.untrack 1, Call.untrack 42,
       Call.track 5 "again" 1 true])
    = Multiset.ofList (liveRecords (history []
      [Call.track 1000 "Main Function" 1 true, Call.track 2000 "Data Processing" 2 true,
       Call.track 16 "x" 0 true, Call.track 7 "y" 9 false, Call.untrack 1, Call.untrack 42,
       Call.track 5 "again" 1 true])) :=
  ⟨by decide, C1_records_are_live _ (by decide)⟩

/-- C2: in a registry whose record addresses are pairwise distinct, two
consecutive calls of `tracked_free` with a tracked address `p` behave as `Ok`
then `NotTracked`: the first removes the record of `p` and hands `p` to `free`
once, the second prints the untracked-memory diagnostic, frees nothing and
leaves the list as it is, so over both calls `p` is released exactly once. -/
theorem C2_untrack_twice (l : List MemoryBlock) (p : Ptr)
    (hn : (addresses l).Nodup) (hp : p ∈ addresses l) :
    outcome (tracked_free l p) = Outcome.Ok ∧
    released (tracked_free l p).trace = [p] ∧
    (tracked_free l p).allocations = l.filter (fun b => decide (b.address ≠ p)) ∧
    p ∉ addresses (tracked_free l p).allocations ∧
    outcome (tracked_free (tracked_free l p).allocations p) = Outcome.NotTracked ∧
    diagnosed (tracked_free (tracked_free l p).allocations p).trace = [p] ∧
    released (tracked_free (tracked_free l p).allocations p).trace = [] ∧
    releasedBlocks (tracked_free (tracked_free l p).allocations p).trace = [] ∧
    (tracked_free (tracked_free l p).allocations p).allocations
      = (tracked_free l p).allocations ∧
    released ((tracked_free l p).trace
      ++ (tracked_free (tracked_free l p).allocations p).trace) = [p] := by
  obtain ⟨h1, _, h3, _⟩ := tracked_free_from_present p l hp
  have hf := tracked_free_from_nodup p l hn
  have habs : p ∉ addresses (tracked_free l p).allocations := by
    simp only [tracked_free, hf, addresses, List.mem_map, List.mem_filter, not_exists, not_and]
    intro b hb e
    simp [e] at hb
  obtain ⟨a1, a2, a3, a4⟩ := tracked_free_from_absent p (tracked_free l p).allocations habs
  have r1 : released (tracked_free l p).trace = [p] := by
    simp [tracked_free, released, h1]
  have r2 : released (tracked_free (tracked_free l p).allocations p).trace = [] := by
    simp only [tracked_free, released] at a2 ⊢
    exact a2
  refine ⟨?_, r1, ?_, habs, ?_, ?_, r2, ?_, ?_, ?_⟩
  · simp [outcome, tracked_free, diagnosed, h3]
  · simp only [tracked_free, hf]
  · simp only [tracked_free, outcome, diagnosed] at a4 ⊢
    simp [a4]
  · simp only [tracked_free, diagnosed] at a4 ⊢
    exact a4
  · simp only [tracked_free, releasedBlocks] at a3 ⊢
    exact a3
  · simp only [tracked_free] at a1 ⊢
    exact a1
  · rw [released_append, r1, r2]; rfl

/-- Instance of C2: a registry of two records, address 5 released twice. -/
theorem C2_untrack_twice_witness :
    outcome (tracked_free [{ address := 5, size := 10, allocation_source := "a" },
      { address := 6, size := 1, allocation_source := "b" }] 5) = Outcome.Ok ∧
    outcome (tracked_free (tracked_free [{ address := 5, size := 10, allocation_source := "a" },
      { address := 6, size := 1, allocation_source := "b" }] 5).allocations 5)
      = Outcome.NotTracked :=
  ⟨(C2_untrack_twice [{ address := 5, size := 10, allocation_source := "a" },
      { address := 6, size := 1, allocation_source := "b" }] 5 (by decide) (by decide)).1,
   (C2_untrack_twice [{ address := 5, size := 10, allocation_source := "a" },
      { address := 6, size := 1, allocation_source := "b" }] 5 (by decide)
      (by decide)).2.2.2.2.1⟩

/-- C3: when no record has address `p`, `tracked_free` prints the
untracked-memory diagnostic for `p` (the `NotTracked` result), hands nothing to
`free`, neither a user region nor a bookkeeping node, and leaves the record
list as it was. -/
theorem C3_untrack_absent (l : List MemoryBlock) (p : Ptr) (hp : p ∉ addresses l) :
    outcome (tracked_free l p) = Outcome.NotTracked ∧
    diagnosed (tracked_free l p).trace = [p] ∧
    released (tracked_free l p).trace = [] ∧
    releasedBlocks (tracked_free l p).trace = [] ∧
    (tracked_free l p).allocations = l := by
  obtain ⟨a1, a2, a3, a4⟩ := tracked_free_from_absent p l hp
  simp [outcome, tracked_free, diagnosed, released, releasedBlocks, a1, a2, a3, a4]

/-- Instance of C3: address 7 is not among the addresses 5 and 6. -/
theorem C3_untrack_absent_witness :
    (tracked_free [{ address := 5, size := 10, allocation_source := "a" },
      { address := 6, size := 1, allocation_source := "b" }] 7).allocations
      = [{ address := 5, size := 10, allocation_source := "a" },
         { address := 6, size := 1, allocation_source := "b" }] :=
  (C3_untrack_absent [{ address := 5, size := 10, allocation_source := "a" },
      { address := 6, size := 1, allocation_source := "b" }] 7 (by decide)).2.2.2.2

/-- C4: when `malloc(size)` returns `NULL`, `tracked_malloc` returns `NULL`, the
record list is unchanged and nothing but that one allocator call happens. -/
theorem C4_track_allocator_failure (l : List MemoryBlock) (size : Nat) (source : String)
    (block : Bool) :
    (tracked_malloc l size source NULL block).ret = NULL ∧
    (tracked_malloc l size source NULL block).allocations = l ∧
    (tracked_malloc l size source NULL block).trace = [Event.malloc size NULL] := by
  simp [tracked_malloc]

/-- C5: when `malloc(size)` returns a region `p` and the allocation of the
bookkeeping node fails, `tracked_malloc` hands `p` to `free` exactly once,
returns `NULL` (the value it returns when `malloc(size)` itself fails) and
leaves the record list unchanged. -/
theorem C5_track_bookkeeping_failure (l : List MemoryBlock) (size : Nat) (source : String)
    (p : Ptr) (hp : p ≠ NULL) :
    released (tracked_malloc l size source p false).trace = [p] ∧
    (tracked_malloc l size source p false).ret = NULL ∧
    (tracked_malloc l size source p false).ret
      = (tracked_malloc l size source NULL false).ret ∧
    (tracked_malloc l size source p false).allocations = l ∧
    (tracked_malloc l size source p false).trace
      = [Event.malloc size p, Event.EnterCriticalSection, Event.mallocBlock false,
         Event.free p, Event.LeaveCriticalSection] := by
  simp [tracked_malloc, hp, released]

/-- Instance of C5: the node allocation fails after `malloc(16)` returned 9. -/
theorem C5_track_bookkeeping_failure_witness :
    released (tracked_malloc [{ address := 5, size := 10, allocation_source := "a" }]
      16 "b" 9 false).trace = [9] :=
  (C5_track_bookkeeping_failure [{ address := 5, size := 10, allocation_source := "a" }]
    16 "b" 9 (by decide)).1

/-- C6: `tracked_malloc` returns a non-null handle exactly when one new record
was put in front of the list; then the handle is the address `malloc(size)`
returned, the new record is that address with the requested size and the given
label, the count grows by one and the old records follow unchanged; when it
returns `NULL` the list, hence the count, is unchanged. -/
theorem C6_track_record (l : List MemoryBlock) (size : Nat) (source : String) (ptr : Ptr)
    (block : Bool) :
    ((tracked_malloc l size source ptr block).ret ≠ NULL ↔
      ∃ r, (tracked_malloc l size source ptr block).allocations = r :: l) ∧
    ((tracked_malloc l size source ptr block).ret ≠ NULL →
      (tracked_malloc l size source ptr block).ret = ptr ∧
      (tracked_malloc l size source ptr block).allocations
        = { address := ptr, size := size, allocation_source := source } :: l ∧
      (tracked_malloc l size source ptr block).allocations.length = l.length + 1) ∧
    ((tracked_malloc l size source ptr block).ret = NULL →
      (tracked_malloc l size source ptr block).allocations = l ∧
      (tracked_malloc l size source ptr block).allocations.length = l.length) := by
  by_cases h : ptr = NULL <;> cases block <;> simp [tracked_malloc, h]

/-- Instance of C6: tracking 8 bytes at address 5 in an empty registry. -/
theorem C6_track_record_witness :
    (tracked_malloc [] 8 "a" 5 true).ret ≠ NULL ∧
    ((tracked_malloc [] 8 "a" 5 true).ret = 5 ∧
      (tracked_malloc [] 8 "a" 5 true).allocations
        = [{ address := 5, size := 8, allocation_source := "a" }] ∧
      (tracked_malloc [] 8 "a" 5 true).allocations.length = ([] : List MemoryBlock).length + 1) :=
  ⟨by decide, (C6_track_record [] 8 "a" 5 true).2.1 (by decide)⟩

/-- C7: in a registry whose record addresses are pairwise distinct,
`tracked_free` of a tracked address `p` ends without diagnostic (`Ok`), hands
`p` to `free` once, and after it no record has address `p`, whatever calls
follow, as long as none of them is a `track` creating a record for `p`. -/
theorem C7_untrack_removes (l : List MemoryBlock) (p : Ptr)
    (hn : (addresses l).Nodup) (hp : p ∈ addresses l) :
    outcome (tracked_free l p) = Outcome.Ok ∧
    released (tracked_free l p).trace = [p] ∧
    ∀ cs : List Call, (∀ c ∈ cs, retracks p c = false) →
      p ∉ addresses (run (tracked_free l p).allocations cs) := by
  obtain ⟨h1, _, h3, _⟩ := tracked_free_from_present p l hp
  have hf := tracked_free_from_nodup p l hn
  have habs : p ∉ addresses (tracked_free l p).allocations := by
    simp only [tracked_free, hf, addresses, List.mem_map, List.mem_filter, not_exists, not_and]
    intro b hb e
    simp [e] at hb
  refine ⟨?_, ?_, ?_⟩
  · simp [outcome, tracked_free, diagnosed, h3]
  · simp [tracked_free, released, h1]
  · intro cs hcs
    exact run_keeps_absent p cs _ habs hcs

/-- Instance of C7: address 5 stays absent through a later `track` of address 7
and a second `untrack` of 5. -/
theorem C7_untrack_removes_witness :
    5 ∉ addresses (run (tracked_free [{ address := 5, size := 10, allocation_source := "a" },
      { address := 6, size := 1, allocation_source := "b" }] 5).allocations
      [Call.track 3 "c" 7 true, Call.untrack 5]) :=
  (C7_untrack_removes [{ address := 5, size := 10, allocation_source := "a" },
      { address := 6, size := 1, allocation_source := "b" }] 5 (by decide) (by decide)).2.2
    [Call.track 3 "c" 7 true, Call.untrack 5] (by decide)

/-- C8: after any sequence of calls from the empty registry the list traversed
from `allocations` keeps the records in reverse order of creation (it is a
subsequence of the created records, newest first); under the allocator
assumption it is exactly the live records, newest first; both reports list the
records in that order.  Tracking sizes 1000, 2000, 500 in that order makes the
visualization visit 500, 2000, 1000. -/
theorem C8_most_recent_first (w : Nat) (cs : List Call) :
    List.Sublist (run [] cs) (createdRecords (history [] cs)).reverse ∧
    (fresh [] cs = true → run [] cs = (liveRecords (history [] cs)).reverse) ∧
    reportedRecords (stdout (visualize_memory_usage (run [] cs)).trace) = run [] cs ∧
    reportedRecords (stdout (check_memory_leaks w (run [] cs)).trace) = run [] cs ∧
    ∀ p1 p2 p3 : Ptr, p1 ≠ NULL → p2 ≠ NULL → p3 ≠ NULL →
      (reportedRecords (stdout (visualize_memory_usage (run []
        [Call.track 1000 "Main Function" p1 true, Call.track 2000 "Data Processing" p2 true,
         Call.track 500 "GUI Module" p3 true])).trace)).map MemoryBlock.size
        = [500, 2000, 1000] := by
  refine ⟨?_, ?_, reportedRecords_visualize _, reportedRecords_check w _, ?_⟩
  · simpa using run_sublist_created cs []
  · intro hf
    rw [run_eq_live cs [] (by simp [addresses]) hf]
    simp
  · intro p1 p2 p3 h1 h2 h3
    rw [reportedRecords_visualize]
    simp [run, step_track, h1, h2, h3]

/-- Instance of C8: the run of `main` with addresses 1, 2, 3, then a release. -/
theorem C8_most_recent_first_witness :
    fresh [] [Call.track 1000 "Main Function" 1 true, Call.track 2000 "Data Processing" 2 true,
      Call.track 500 "GUI Module" 3 true, Call.untrack 2] = true ∧
    run [] [Call.track 1000 "Main Function" 1 true, Call.track 2000 "Data Processing" 2 true,
      Call.track 500 "GUI Module" 3 true, Call.untrack 2]
    = (liveRecords (history [] [Call.track 1000 "Main Function" 1 true,
        Call.track 2000 "Data Processing" 2 true, Call.track 500 "GUI Module" 3 true,
        Call.untrack 2])).reverse ∧
    (reportedRecords (stdout (visualize_memory_usage (run []
        [Call.track 1000 "Main Function" 1 true, Call.track 2000 "Data Processing" 2 true,
         Call.track 500 "GUI Module" 3 true])).trace)).map MemoryBlock.size
        = [500, 2000, 1000] :=
  ⟨by decide, (C8_most_recent_first 64 _).2.1 (by decide),
    (C8_most_recent_first 64 []).2.2.2.2 1 2 3 (by decide) (by decide) (by decide)⟩

/-- C9: for every registry state whose records are regions an allocator can
have outstanding (non-null, inside the `w`-bit address space, not overlapping),
`check_memory_leaks` accumulates in the `size_t` variable `total_leaks` the sum
of the sizes of the tracked records, without wraparound, and prints it as the
leaked total when the registry is not empty; for the empty registry the sum is
`0` and the report is the line `No memory leaks`.  After tracking 1000, 2000 and
500 bytes and untracking the first and the third, one record of size 2000
remains and the printed total is 2000. -/
theorem C9_total_leaked (w : Nat) (l : List MemoryBlock) (hreg : validRegions w l) :
    (leak_loop w 0 1 l).1 = totalSize l ∧
    reportedTotals (stdout (check_memory_leaks w l).trace)
      = (if l = [] then [] else [totalSize l]) ∧
    stdout (check_memory_leaks w []).trace
      = [("\n=== Memory-Leak-Analysis ===\n", []), ("No memory leaks\n", [])] ∧
    (leak_loop w 0 1 []).1 = totalSize [] ∧
    (∀ p1 p2 p3 : Ptr, p1 ≠ NULL → p2 ≠ NULL → p3 ≠ NULL → p1 ≠ p2 → p1 ≠ p3 → p2 ≠ p3 →
      2000 < 2 ^ w →
      run [] [Call.track 1000 "Main Function" p1 true,
              Call.track 2000 "Data Processing" p2 true,
              Call.track 500 "GUI Module" p3 true, Call.untrack p1, Call.untrack p3]
        = [{ address := p2, size := 2000, allocation_source := "Data Processing" }] ∧
      reportedTotals (stdout (check_memory_leaks w (run []
          [Call.track 1000 "Main Function" p1 true,
           Call.track 2000 "Data Processing" p2 true,
           Call.track 500 "GUI Module" p3 true, Call.untrack p1, Call.untrack p3])).trace)
        = [2000]) := by
  have hlt := totalSize_lt w l hreg
  have ht : (leak_loop w 0 1 l).1 = totalSize l := by
    have := leak_loop_total w l 0 1 (Nat.zero_mod _)
    rw [Nat.zero_add, Nat.mod_eq_of_lt hlt] at this
    exact this
  refine ⟨ht, ?_, stdout_check_nil w, rfl, ?_⟩
  · cases l with
    | nil => rw [stdout_check_nil]; rfl
    | cons b rest =>
      rw [reportedTotals_check, Nat.mod_eq_of_lt hlt]
      simp
  · intro p1 p2 p3 h1 h2 h3 h12 h13 h23 hw
    have hrun : run [] [Call.track 1000 "Main Function" p1 true,
              Call.track 2000 "Data Processing" p2 true,
              Call.track 500 "GUI Module" p3 true, Call.untrack p1, Call.untrack p3]
        = [{ address := p2, size := 2000, allocation_source := "Data Processing" }] := by
      have h31 : ¬ p3 = p1 := fun e => h13 e.symm
      have h21 : ¬ p2 = p1 := fun e => h12 e.symm
      simp [run, step_track, step_untrack, h1, h2, h3, List.eraseP_cons, h31, h21]
    refine ⟨hrun, ?_⟩
    rw [hrun, reportedTotals_check]
    simp [totalSize, Nat.mod_eq_of_lt hw]

/-- Instance of C9: the run of `main` with regions at 4096, 8192 and 12288 on a
64-bit target; the remaining record is a valid region and the total is 2000. -/
theorem C9_total_leaked_witness :
    validRegions 64 (run [] [Call.track 1000 "Main Function" 4096 true,
      Call.track 2000 "Data Processing" 8192 true,
      Call.track 500 "GUI Module" 12288 true, Call.untrack 4096, Call.untrack 12288]) ∧
    reportedTotals (stdout (check_memory_leaks 64 (run []
        [Call.track 1000 "Main Function" 4096 true,
         Call.track 2000 "Data Processing" 8192 true,
         Call.track 500 "GUI Module" 12288 true, Call.untrack 4096,
         Call.untrack 12288])).trace)
      = [2000] :=
  have hv : validRegions 64 (run [] [Call.track 1000 "Main Function" 4096 true,
      Call.track 2000 "Data Processing" 8192 true,
      Call.track 500 "GUI Module" 12288 true, Call.untrack 4096, Call.untrack 12288]) := by
    have hrun : run [] [Call.track 1000 "Main Function" 4096 true,
        Call.track 2000 "Data Processing" 8192 true,
        Call.track 500 "GUI Module" 12288 true, Call.untrack 4096, Call.untrack 12288]
        = [{ address := 8192, size := 2000, allocation_source := "Data Processing" }] := by
      decide
    rw [hrun]
    refine ⟨?_, by simp⟩
    intro b hb
    rw [List.mem_singleton] at hb
    subst hb
    exact ⟨by decide, by norm_num⟩
  ⟨hv, ((C9_total_leaked 64 _ hv).2.1).trans (by decide)⟩

/-- C10: for a record of size `s` the visualization prints, after the
`Memory Map: [` opening, exactly `min (s / 10) 50` glyphs `*`, then the marker
`...` exactly when `s / 10 > 50`, then the closing bracket.  Over a whole
report the glyph count is the sum of these numbers and the marker count is the
number of records with `s / 10 > 50`.  Size 10000 gives 50 glyphs and the
marker, size 300 gives 30 glyphs and no marker. -/
theorem C10_visualization_cap (block_number : Int) (current : MemoryBlock)
    (l : List MemoryBlock) (a : Ptr) (src : String) :
    stdout (visualize_block block_number current)
      = [("Block %d:\n", [Arg.d block_number]),
         ("  Address: %p\n", [Arg.p current.address]),
         ("  Size: %zu bytes\n", [Arg.zu current.size]),
         ("  Source: %s (memory was allocated from)\n", [Arg.s current.allocation_source]),
         ("  Memory Map: [", [])]
        ++ List.replicate (min (current.size / 10) 50) ("*", [])
        ++ (if current.size / 10 > 50 then [("...", [])] else [])
        ++ [("]\n\n", [])] ∧
    (stdout (visualize_block block_number current)).count ("*", [])
      = min (current.size / 10) 50 ∧
    (("...", []) ∈ stdout (visualize_block block_number current) ↔ current.size / 10 > 50) ∧
    (stdout (visualize_memory_usage l).trace).count ("*", [])
      = (l.map (fun b => min (b.size / 10) 50)).sum ∧
    (stdout (visualize_memory_usage l).trace).count ("...", [])
      = (l.filter (fun b => decide (b.size / 10 > 50))).length ∧
    (stdout (visualize_block block_number
        { address := a, size := 10000, allocation_source := src })).drop 4
      = ("  Memory Map: [", []) :: List.replicate 50 ("*", [])
          ++ [("...", []), ("]\n\n", [])] ∧
    (stdout (visualize_block block_number
        { address := a, size := 300, allocation_source := src })).drop 4
      = ("  Memory Map: [", []) :: List.replicate 30 ("*", []) ++ [("]\n\n", [])] := by
  refine ⟨stdout_visualize_block _ _, count_star_block _ _, ?_, ?_, ?_, ?_, ?_⟩
  · rw [← List.count_pos_iff, count_dots_block]
    by_cases h : current.size / 10 > 50 <;> simp [h]
  · rw [stdout_visualize, List.count_append, count_star_loop]
    simp [List.count_cons]
  · rw [stdout_visualize, List.count_append, count_dots_loop]
    simp [List.count_cons]
  · rw [stdout_visualize_block]
    have h1 : (10000 : Nat) / 10 = 1000 := by norm_num
    have h2 : min (1000 : Nat) 50 = 50 := by norm_num
    have h3 : (1000 : Nat) > 50 := by norm_num
    simp only [h1, h2, h3, if_true, List.cons_append, List.nil_append, List.drop_succ_cons,
      List.drop_zero, List.append_assoc]
  · rw [stdout_visualize_block]
    have h1 : (300 : Nat) / 10 = 30 := by norm_num
    have h2 : min (30 : Nat) 50 = 30 := by norm_num
    have h3 : ¬ (30 : Nat) > 50 := by norm_num
    simp only [h1, h2, h3, if_false, List.cons_append, List.nil_append, List.drop_succ_cons,
      List.drop_zero, List.append_assoc, List.append_nil]

/-- C11: `check_memory_leaks` prints the line `No memory leaks` exactly when the
record list is empty; the records it lists are the tracked records, each once,
in traversal order, and there are as many `Leak` lines as tracked records.
While the `int` counter does not overflow (fewer than `2 ^ 31 - 1` records) the
`Leak` lines are numbered 1, 2, ... -/
theorem C11_leak_listing (w : Nat) (l : List MemoryBlock) :
    ((("No memory leaks\n", []) ∈ stdout (check_memory_leaks w l).trace) ↔ l = []) ∧
    reportedRecords (stdout (check_memory_leaks w l).trace) = l ∧
    (leakNumbers (stdout (check_memory_leaks w l).trace)).length = l.length ∧
    (l.length < 2 ^ 31 - 1 →
      leakNumbers (stdout (check_memory_leaks w l).trace)
        = (List.range l.length).map (fun (i : Nat) => (1 : Int) + (i : Int))) := by
  refine ⟨?_, reportedRecords_check w l, ?_, ?_⟩
  · cases l with
    | nil => rw [stdout_check_nil]; simp
    | cons b rest =>
      rw [stdout_check_cons]
      simp only [List.cons_append, List.nil_append, List.mem_cons, List.mem_append,
        reduceCtorEq, iff_false, not_or]
      refine ⟨by simp, by simp, ?_, ?_⟩
      · intro hm
        exact stdout_leak_loop_not_none w _ _ _ _ hm rfl
      · simp
  · cases l with
    | nil => rw [stdout_check_nil]; rfl
    | cons b rest =>
      have key := length_leakNumbers_leak_loop w (b :: rest) 0 1
        [("The leaked memory: %zu bytes\n", [Arg.zu (leak_loop w 0 1 (b :: rest)).1])]
      rw [stdout_check_cons]
      simp only [List.cons_append, List.nil_append]
      rw [leakNumbers, leakNumbers, key, leakNumbers, leakNumbers]
      · rfl
      all_goals
        intro _ e
        simp at e
  · intro hlen
    cases l with
    | nil => rw [stdout_check_nil]; rfl
    | cons b rest =>
      have key := leakNumbers_leak_loop w (b :: rest) 0 1
        [("The leaked memory: %zu bytes\n", [Arg.zu (leak_loop w 0 1 (b :: rest)).1])]
        (by norm_num) (by have : (2 : Int) ^ 31 = 2147483648 := by norm_num
                          have h2 : (2 : Nat) ^ 31 = 2147483648 := by norm_num
                          rw [h2] at hlen
                          omega)
      rw [stdout_check_cons]
      simp only [List.cons_append, List.nil_append]
      rw [leakNumbers, leakNumbers, key, leakNumbers, leakNumbers, List.append_nil]
      all_goals
        intro _ e
        simp at e

/-- Instance of C11: two tracked records give the numbers 1 and 2. -/
theorem C11_leak_listing_witness :
    leakNumbers (stdout (check_memory_leaks 64
        [{ address := 8192, size := 2000, allocation_source := "Data Processing" },
         { address := 4096, size := 1000, allocation_source := "Main Function" }]).trace)
      = [1, 2] :=
  ((C11_leak_listing 64
        [{ address := 8192, size := 2000, allocation_source := "Data Processing" },
         { address := 4096, size := 1000, allocation_source := "Main Function" }]).2.2.2
      (by decide)).trans (by decide)

/-- C12: `visualize_memory_usage` and `check_memory_leaks` return with the
record list they were given, their actions contain no write to the list and no
allocator call, and a second call right after the first performs the same
actions, so prints the same report and lists the same records. -/
theorem C12_reports_read_only (w : Nat) (l : List MemoryBlock) :
    (visualize_memory_usage l).allocations = l ∧
    (check_memory_leaks w l).allocations = l ∧
    (visualize_memory_usage l).trace.filter mutating = [] ∧
    (check_memory_leaks w l).trace.filter mutating = [] ∧
    (visualize_memory_usage (visualize_memory_usage l).allocations).trace
      = (visualize_memory_usage l).trace ∧
    (check_memory_leaks w (check_memory_leaks w l).allocations).trace
      = (check_memory_leaks w l).trace ∧
    (check_memory_leaks w (visualize_memory_usage l).allocations).trace
      = (check_memory_leaks w l).trace ∧
    reportedRecords (stdout (visualize_memory_usage
      (visualize_memory_usage l).allocations).trace)
      = reportedRecords (stdout (visualize_memory_usage l).trace) ∧
    reportedRecords (stdout (check_memory_leaks w (check_memory_leaks w l).allocations).trace)
      = reportedRecords (stdout (check_memory_leaks w l).trace) := by
  refine ⟨rfl, rfl, ?_, ?_, rfl, rfl, rfl, rfl, rfl⟩
  · rw [List.filter_eq_nil_iff]
    intro e he
    rw [Bool.not_eq_true]
    simp only [visualize_memory_usage, List.mem_append, List.mem_cons] at he
    rcases he with ((he | he | he | he | he) | he) | he | he
    any_goals (rw [he]; rfl)
    · simp at he
    · exact not_mutating_of_passive _ (fun x hx => mem_visualize_loop x l 1 hx) e he
    · simp at he
  · rw [List.filter_eq_nil_iff]
    intro e he
    rw [Bool.not_eq_true]
    cases l with
    | nil =>
      simp only [check_memory_leaks, List.mem_append, List.mem_cons] at he
      rcases he with ((he | he | he | he) | he | he) | he | he
      any_goals (rw [he]; rfl)
      all_goals simp at he
    | cons b rest =>
      simp only [check_memory_leaks, List.mem_append, List.mem_cons] at he
      rcases he with ((he | he | he | he) | ((he | he) | he) | he | he) | he | he
      any_goals (rw [he]; rfl)
      any_goals exact absurd he (List.not_mem_nil _)
      exact not_mutating_of_passive _
        (fun x hx => mem_leak_loop x w (b :: rest) 0 1 hx) e he

/-- C13: in every state reached from the empty registry by `tracked_malloc` and
`tracked_free` calls during which the allocator never returns an address that
is still tracked, the addresses of the records are pairwise distinct. -/
theorem C13_addresses_distinct (cs : List Call) (hf : fresh [] cs = true) :
    (addresses (run [] cs)).Nodup :=
  run_nodup cs [] (by simp [addresses]) hf

/-- Instance of C13: three tracked regions, one released and its address reused. -/
theorem C13_addresses_distinct_witness :
    (addresses (run [] [Call.track 1000 "Main Function" 1 true,
      Call.track 2000 "Data Processing" 2 true, Call.track 500 "GUI Module" 3 true,
      Call.untrack 2, Call.track 8 "again" 2 true])).Nodup :=
  C13_addresses_distinct _ (by decide)

/-- C15 as stated fails: when `malloc(size)` returns `NULL`, `tracked_malloc`
returns without ever entering `memory_lock`. -/
theorem C15_allocator_failure_counterexample :
    ¬ (Event.EnterCriticalSection
        ∈ (tracked_malloc [] 1000 "Main Function" NULL true).trace) := by
  decide

/-- C15 (amended): on every exit path of `tracked_malloc`, `tracked_free`,
`visualize_memory_usage` and `check_memory_leaks` the operations on
`memory_lock` are balanced, the lock is not held at the return and the record
list is read or written only while the lock is held.  Every path enters and
leaves the lock exactly once, except the return of `tracked_malloc` after
`malloc(size)` gave `NULL`, which performs no lock operation (and no access to
the list). -/
theorem C15_lock_discipline (w : Nat) (l : List MemoryBlock) (size : Nat) (source : String)
    (ptr : Ptr) (block : Bool) (p : Ptr) :
    lockScan 0 (tracked_malloc l size source ptr block).trace = some 0 ∧
    lockScan 0 (tracked_free l p).trace = some 0 ∧
    lockScan 0 (visualize_memory_usage l).trace = some 0 ∧
    lockScan 0 (check_memory_leaks w l).trace = some 0 ∧
    lockOps (tracked_malloc l size source ptr block).trace
      = (if ptr = NULL then []
         else [Event.EnterCriticalSection, Event.LeaveCriticalSection]) ∧
    (tracked_malloc l size source NULL block).trace = [Event.malloc size NULL] ∧
    lockOps (tracked_free l p).trace
      = [Event.EnterCriticalSection, Event.LeaveCriticalSection] ∧
    lockOps (visualize_memory_usage l).trace
      = [Event.EnterCriticalSection, Event.LeaveCriticalSection] ∧
    lockOps (check_memory_leaks w l).trace
      = [Event.EnterCriticalSection, Event.LeaveCriticalSection] := by
  refine ⟨?_, ?_, ?_, ?_, ?_, ?_, ?_, ?_, ?_⟩
  · by_cases hz : ptr = NULL <;> cases block <;> simp [tracked_malloc, hz, lockScan]
  · simp only [tracked_free, lockScan]
    exact lockScan_tracked_free_from p l 0
  · rw [trace_visualize, lockScan_append]
    have e : lockScan 0 [Event.EnterCriticalSection,
         Event.printf "\n=== Memory Usage Visualization ===\n" [],
         Event.printf "Each [*] represents ~%d bytes\n\n" [Arg.d MEMORY_VISUALIZATION_SCALE],
         Event.load] = some 1 := rfl
    rw [e, Option.some_bind, lockScan_append, lockScan_visualize_loop l 0 1]
    rfl
  · cases l with
    | nil => rfl
    | cons b rest =>
      rw [trace_check_cons, lockScan_append]
      have e : lockScan 0 [Event.EnterCriticalSection, Event.load,
         Event.printf "\n=== Memory-Leak-Analysis ===\n" [],
         Event.printf "checking unfreed memory allocations...\n\n" []] = some 1 := rfl
      rw [e, Option.some_bind, lockScan_append, lockScan_leak_loop w (b :: rest) 0 0 1]
      rfl
  · by_cases hz : ptr = NULL <;> cases block <;> simp [tracked_malloc, hz, lockOps]
  · simp [tracked_malloc]
  · simp only [tracked_free, lockOps, lockOps_tracked_free_from]
  · rw [trace_visualize, lockOps_append, lockOps_append,
      lockOps_of_passive _ (fun x hx => mem_visualize_loop x l 1 hx)]
    rfl
  · cases l with
    | nil => rfl
    | cons b rest =>
      rw [trace_check_cons, lockOps_append, lockOps_append,
        lockOps_of_passive _ (fun x hx => mem_leak_loop x w (b :: rest) 0 1 hx)]
      rfl

/-- C16 as stated fails: in a successful `tracked_malloc` the call `malloc(size)`
for the user region happens at lock depth `0`, before `memory_lock` is entered. -/
theorem C16_allocation_outside_lock_counterexample :
    (Event.malloc 1000 5, 0)
      ∈ lockDepths 0 (tracked_malloc [] 1000 "Main Function" 5 true).trace := by
  decide

/-- C16 (amended): the release of the user region, in `tracked_free` and in the
rollback of `tracked_malloc`, and the allocation of the bookkeeping node are
performed while `memory_lock` is held (depth 1); the allocation `malloc(size)`
of the user region in `tracked_malloc` is performed before the lock is entered
(depth 0). -/
theorem C16_lock_serializes_release (l : List MemoryBlock) (size : Nat) (source : String)
    (ptr : Ptr) (block : Bool) (p : Ptr) :
    (lockDepths 0 (tracked_free l p).trace).filter (fun x => isUserRelease x.1)
      = (if p ∈ addresses l then [(Event.free p, 1)] else []) ∧
    (lockDepths 0 (tracked_malloc l size source ptr block).trace).filter
        (fun x => isUserRelease x.1)
      = (if ptr ≠ NULL ∧ block = false then [(Event.free ptr, 1)] else []) ∧
    (lockDepths 0 (tracked_malloc l size source ptr block).trace).filter
        (fun x => decide (x.1 = Event.mallocBlock block))
      = (if ptr ≠ NULL then [(Event.mallocBlock block, 1)] else []) ∧
    (lockDepths 0 (tracked_malloc l size source ptr block).trace).filter
        (fun x => isUserAlloc x.1)
      = [(Event.malloc size ptr, 0)] ∧
    (lockDepths 0 (tracked_free l p).trace).filter (fun x => isUserAlloc x.1) = [] := by
  have e1 : isUserRelease Event.EnterCriticalSection = false := rfl
  have e2 : isUserAlloc Event.EnterCriticalSection = false := rfl
  obtain ⟨h1, h2⟩ := lockDepths_tracked_free_from p l
  refine ⟨?_, ?_, ?_, ?_, ?_⟩
  · simp only [tracked_free, lockDepths, List.filter_cons, e1, Bool.false_eq_true, if_false]
    exact h1
  · by_cases hz : ptr = NULL <;> cases block <;>
      simp [tracked_malloc, hz, lockDepths, isUserRelease]
  · by_cases hz : ptr = NULL <;> cases block <;>
      simp [tracked_malloc, hz, lockDepths]
  · by_cases hz : ptr = NULL <;> cases block <;>
      simp [tracked_malloc, hz, lockDepths, isUserAlloc]
  · simp only [tracked_free, lockDepths, List.filter_cons, e2, Bool.false_eq_true, if_false]
    exact h2

/-- C17: for every registry state, a `tracked_malloc` that returns a non-null
handle followed at once by `tracked_free` of that handle gives back the record
list as it was, same records in the same order; and any sequence of such
track/untrack pairs from the empty registry, successful or not, leaves it
empty. -/
theorem C17_track_untrack_restores (l : List MemoryBlock) (size : Nat) (source : String)
    (ptr : Ptr) (block : Bool) (ps : List (Nat × String × Ptr × Bool)) :
    ((tracked_malloc l size source ptr block).ret ≠ NULL →
      (tracked_free (tracked_malloc l size source ptr block).allocations
        (tracked_malloc l size source ptr block).ret).allocations = l) ∧
    run [] (pairs [] ps) = [] := by
  refine ⟨?_, run_pairs ps [] (by simp [addresses])⟩
  intro h
  by_cases hz : ptr = NULL
  · simp [tracked_malloc, hz] at h
  · cases block
    · simp [tracked_malloc, hz] at h
    · simp [tracked_malloc, hz, tracked_free, tracked_free_from]

/-- Instance of C17: a registry holding address 5 twice, a new region at the
same address 5 tracked and released again. -/
theorem C17_track_untrack_restores_witness :
    (tracked_free (tracked_malloc [{ address := 5, size := 10, allocation_source := "a" },
        { address := 5, size := 3, allocation_source := "b" }] 8 "c" 5 true).allocations
      (tracked_malloc [{ address := 5, size := 10, allocation_source := "a" },
        { address := 5, size := 3, allocation_source := "b" }] 8 "c" 5 true).ret).allocations
      = [{ address := 5, size := 10, allocation_source := "a" },
         { address := 5, size := 3, allocation_source := "b" }] :=
  (C17_track_untrack_restores [{ address := 5, size := 10, allocation_source := "a" },
      { address := 5, size := 3, allocation_source := "b" }] 8 "c" 5 true []).1 (by decide)

/-- C18: for every registry state and every address `p` held by at least one
record, `tracked_free` removes exactly the first record in traversal order
whose address is `p`: the list splits as `pre ++ b :: post` with `b` the first
match, the result is `pre ++ post`, the node of `b` is the one node freed, the
count drops by one, and every other record, later ones with address `p`
included, stays in place with its fields. -/
theorem C18_untrack_first_match (l : List MemoryBlock) (p : Ptr) (hp : p ∈ addresses l) :
    ∃ pre b post, l = pre ++ b :: post ∧ b.address = p ∧ (∀ x ∈ pre, x.address ≠ p) ∧
      (tracked_free l p).allocations = pre ++ post ∧
      releasedBlocks (tracked_free l p).trace = [b] ∧
      (tracked_free l p).allocations.length + 1 = l.length := by
  obtain ⟨pre, b, post, h1, h2, h3, h4, h5⟩ := tracked_free_from_split p l hp
  refine ⟨pre, b, post, h1, h2, h3, h4, ?_, ?_⟩
  · simpa [tracked_free, releasedBlocks] using h5
  · simp only [tracked_free, h4]
    rw [h1]
    simp only [List.length_append, List.length_cons]
    omega

/-- Instance of C18: address 5 is held by the second and the third record. -/
theorem C18_untrack_first_match_witness :
    ∃ pre b post,
      ([{ address := 6, size := 1, allocation_source := "x" },
        { address := 5, size := 10, allocation_source := "a" },
        { address := 5, size := 3, allocation_source := "b" }] : List MemoryBlock)
        = pre ++ b :: post ∧
      b.address = 5 ∧ (∀ x ∈ pre, x.address ≠ 5) ∧
      (tracked_free [{ address := 6, size := 1, allocation_source := "x" },
       { address := 5, size := 10, allocation_source := "a" },
       { address := 5, size := 3, allocation_source := "b" }] 5).allocations = pre ++ post ∧
      releasedBlocks (tracked_free [{ address := 6, size := 1, allocation_source := "x" },
       { address := 5, size := 10, allocation_source := "a" },
       { address := 5, size := 3, allocation_source := "b" }] 5).trace = [b] ∧
      (tracked_free [{ address := 6, size := 1, allocation_source := "x" },
       { address := 5, size := 10, allocation_source := "a" },
       { address := 5, size := 3, allocation_source := "b" }] 5).allocations.length + 1
        = ([{ address := 6, size := 1, allocation_source := "x" },
            { address := 5, size := 10, allocation_source := "a" },
            { address := 5, size := 3, allocation_source := "b" }] : List MemoryBlock).length :=
  C18_untrack_first_match _ 5 (by decide)

/-- C19: after any sequence of `tracked_malloc` and `tracked_free` calls from the
empty registry, the user regions obtained by `malloc(size)` and not yet handed
to `free` are the addresses held by the records, in the same order: no region
is outstanding without a record and no record holds a released region.  When
the allocator never returns an address that is still tracked, no address
occurs twice among them. -/
theorem C19_outstanding_regions (cs : List Call) :
    outstanding [] (runTrace [] cs) = addresses (run [] cs) ∧
    (∀ a : Ptr, a ∈ outstanding [] (runTrace [] cs) ↔ a ∈ addresses (run [] cs)) ∧
    (fresh [] cs = true → (outstanding [] (runTrace [] cs)).Nodup) := by
  have h := outstanding_run cs []
  simp only [addresses, List.map_nil] at h
  refine ⟨h, ?_, ?_⟩
  · intro a
    rw [h]
    rfl
  · intro hf
    rw [h]
    exact run_nodup cs [] (by simp [addresses]) hf

/-- Instance of C19: a run with a rollback, a release and a reused address. -/
theorem C19_outstanding_regions_witness :
    (outstanding [] (runTrace [] [Call.track 1000 "Main Function" 1 true,
      Call.track 2000 "Data Processing" 2 true, Call.track 7 "y" 9 false,
      Call.untrack 1, Call.track 5 "again" 1 true])).Nodup :=
  (C19_outstanding_regions _).2.2 (by decide)

/-- C20: in every state reached from the empty registry by `tracked_malloc` and
`tracked_free` calls no record has the null address, so `tracked_free(NULL)`
prints the untracked-memory diagnostic, hands nothing to `free` and leaves the
record list as it was. -/
theorem C20_no_null_record (cs : List Call) :
    NULL ∉ addresses (run [] cs) ∧
    outcome (tracked_free (run [] cs) NULL) = Outcome.NotTracked ∧
    diagnosed (tracked_free (run [] cs) NULL).trace = [NULL] ∧
    released (tracked_free (run [] cs) NULL).trace = [] ∧
    releasedBlocks (tracked_free (run [] cs) NULL).trace = [] ∧
    (tracked_free (run [] cs) NULL).allocations = run [] cs := by
  have h : NULL ∉ addresses (run [] cs) := run_keeps_null_absent cs [] (by simp [addresses])
  obtain ⟨a1, a2, a3, a4⟩ := tracked_free_from_absent NULL (run [] cs) h
  refine ⟨h, ?_, ?_, ?_, ?_, ?_⟩
  · simp [outcome, tracked_free, diagnosed, a4]
  · simpa [tracked_free, diagnosed] using a4
  · simpa [tracked_free, released] using a2
  · simpa [tracked_free, releasedBlocks] using a3
  · simpa [tracked_free] using a1

end SysMon
